import Mathlib

/-!
VGA text-mode terminal of `kernel/kernel.c`.

A shallow embedding of the terminal driver (`terminal_initialize`,
`terminal_putentryat`, `terminal_scroll`, `terminal_putchar`, `terminal_write`,
`terminal_writestring`, `terminal_set_cursor`, `terminal_clear`) and of the boot
sequence (`show_welcome_screen`, `kernel_main`), together with theorems about
cursor movement, wrapping, scrolling, cell packing and the final boot screen.

Conventions of the embedding
* `size_t` values are natural numbers; every `size_t` computation of the source
  is reduced modulo `SIZE_MOD = 2 ^ 64`.
* `char` and `uint8_t` values are natural numbers below 256, `uint16_t` cells are
  natural numbers below 65536; the conversions the C code performs on parameters
  and return values appear as explicit `%`.
* The memory reached through `terminal_buffer` is a function from the cell index
  to the 16-bit cell stored there.  Indices `0 .. 1999` are the 80x25 surface.
* The C `for` loops are kept as loops (`forLoop`); their closed forms are proved.
-/

namespace Kernel

/-- Width of the text surface (`VGA_WIDTH`). -/
def VGA_WIDTH : Nat := 80

/-- Height of the text surface (`VGA_HEIGHT`). -/
def VGA_HEIGHT : Nat := 25

/-- Modulus of `size_t` arithmetic, `2 ^ 64`. -/
def SIZE_MOD : Nat := 18446744073709551616

/-- Value of `VGA_COLOR_BLACK`. -/
def VGA_COLOR_BLACK : Nat := 0

/-- Value of `VGA_COLOR_BLUE`. -/
def VGA_COLOR_BLUE : Nat := 1

/-- Value of `VGA_COLOR_LIGHT_GREY`. -/
def VGA_COLOR_LIGHT_GREY : Nat := 7

/-- Value of `VGA_COLOR_WHITE`. -/
def VGA_COLOR_WHITE : Nat := 15

/-- The byte of the newline character. -/
def NEWLINE : Nat := 10

/-- The byte of the space character. -/
def SPACE : Nat := 32

/-- Terminal state: the four `static` variables of the source, the memory behind
`terminal_buffer` as a map from cell index to cell, and one ghost field
`scroll_calls` that counts the calls of `terminal_scroll` made so far (it is not
program state; it only makes "scrolls exactly once" statable). -/
@[ext]
structure Terminal where
  terminal_row : Nat
  terminal_column : Nat
  terminal_color : Nat
  terminal_buffer : Nat → Nat
  scroll_calls : Nat

/-- The C loop `for (size_t i = 0; i < n; i++) body(i)`, threading the state. -/
def forLoop {σ : Type} (n : Nat) (body : Nat → σ → σ) (s : σ) : σ :=
  match n with
  | 0 => s
  | k + 1 => body k (forLoop k body s)

/-- Packed colour byte: `fg | bg << 4`, returned as `uint8_t`. -/
def vga_entry_color (fg bg : Nat) : Nat :=
  (fg ||| (bg <<< 4)) % 256

/-- Packed cell: `(uint16_t) uc | (uint16_t) color << 8`, with the parameter
conversions to `unsigned char` and `uint8_t`. -/
def vga_entry (uc color : Nat) : Nat :=
  ((uc % 256) ||| ((color % 256) <<< 8)) % 65536

/-- The index expression `y * VGA_WIDTH + x` in `size_t` arithmetic. -/
def cell_index (x y : Nat) : Nat :=
  (y * VGA_WIDTH + x) % SIZE_MOD

/-- Memory `buf` after one cell `i` received the value `v`. -/
def put_cell (buf : Nat → Nat) (i v : Nat) : Nat → Nat :=
  fun j => if j = i then v else buf j

/-- The assignment `terminal_buffer[i] = v`. -/
def store (i v : Nat) (s : Terminal) : Terminal :=
  { s with terminal_buffer := put_cell s.terminal_buffer i v }

/-- Embedding of `terminal_initialize`. -/
def terminal_initialize (s : Terminal) : Terminal :=
  let s1 := { s with terminal_row := 0 }
  let s2 := { s1 with terminal_column := 0 }
  let s3 := { s2 with terminal_color := vga_entry_color VGA_COLOR_LIGHT_GREY VGA_COLOR_BLACK }
  forLoop VGA_HEIGHT (fun y t =>
    forLoop VGA_WIDTH (fun x u =>
      store (cell_index x y) (vga_entry SPACE u.terminal_color) u) t) s3

/-- Embedding of `terminal_setcolor`; the parameter is a `uint8_t`. -/
def terminal_setcolor (color : Nat) (s : Terminal) : Terminal :=
  { s with terminal_color := color % 256 }

/-- Embedding of `terminal_putentryat`. -/
def terminal_putentryat (c color x y : Nat) (s : Terminal) : Terminal :=
  store (cell_index x y) (vga_entry c color) s

/-- Embedding of `terminal_scroll`: the in-place row copy, then the blanking of
the bottom row.  The ghost counter is incremented. -/
def terminal_scroll (s : Terminal) : Terminal :=
  let s1 := forLoop (VGA_HEIGHT - 1) (fun y t =>
    forLoop VGA_WIDTH (fun x u =>
      store (cell_index x y) (u.terminal_buffer (cell_index x (y + 1))) u) t) s
  let s2 := forLoop VGA_WIDTH (fun x u =>
    store (cell_index x (VGA_HEIGHT - 1)) (vga_entry SPACE u.terminal_color) u) s1
  { s2 with scroll_calls := s2.scroll_calls + 1 }

/-- The statement `if (++terminal_row == VGA_HEIGHT) { terminal_scroll();
terminal_row = VGA_HEIGHT - 1; }` shared by both branches of `terminal_putchar`. -/
def advance_row (s : Terminal) : Terminal :=
  let s1 := { s with terminal_row := (s.terminal_row + 1) % SIZE_MOD }
  if s1.terminal_row = VGA_HEIGHT then
    { terminal_scroll s1 with terminal_row := VGA_HEIGHT - 1 }
  else s1

/-- Embedding of `terminal_putchar`; `c` is the byte of the character. -/
def terminal_putchar (c : Nat) (s : Terminal) : Terminal :=
  if c = NEWLINE then
    advance_row { s with terminal_column := 0 }
  else
    let s1 := terminal_putentryat c s.terminal_color s.terminal_column s.terminal_row s
    let s2 := { s1 with terminal_column := (s1.terminal_column + 1) % SIZE_MOD }
    if s2.terminal_column = VGA_WIDTH then
      advance_row { s2 with terminal_column := 0 }
    else s2

/-- Embedding of `terminal_write`: `data` is the memory behind the pointer,
`data i` being the byte `data[i]`. -/
def terminal_write (data : Nat → Nat) (size : Nat) (s : Terminal) : Terminal :=
  forLoop size (fun i t => terminal_putchar (data i) t) s

/-- Embedding of `terminal_writestring`: the list holds the bytes found at
`data`, a NUL terminator being understood after its last element.  The loop
stops at the first zero byte, which is not written. -/
def terminal_writestring (data : List Nat) (s : Terminal) : Terminal :=
  match data with
  | [] => s
  | c :: rest => if c = 0 then s else terminal_writestring rest (terminal_putchar c s)

/-- Embedding of `terminal_set_cursor`: the `int` arguments are converted to
`size_t`. -/
def terminal_set_cursor (row col : Int) (s : Terminal) : Terminal :=
  let s1 := { s with terminal_row := (row % (SIZE_MOD : Int)).toNat }
  { s1 with terminal_column := (col % (SIZE_MOD : Int)).toNat }

/-- Embedding of `terminal_clear`. -/
def terminal_clear (s : Terminal) : Terminal :=
  let s1 := forLoop VGA_HEIGHT (fun y t =>
    forLoop VGA_WIDTH (fun x u =>
      store (cell_index x y) (vga_entry SPACE u.terminal_color) u) t) s
  let s2 := { s1 with terminal_row := 0 }
  { s2 with terminal_column := 0 }

/-- The cell stored at column `x` of row `y` of the surface. -/
def cell_at (s : Terminal) (x y : Nat) : Nat :=
  s.terminal_buffer (y * VGA_WIDTH + x)

/-- The cursor is inside the surface. -/
def cursor_in_range (s : Terminal) : Prop :=
  s.terminal_row < VGA_HEIGHT ∧ s.terminal_column < VGA_WIDTH

instance (s : Terminal) : Decidable (cursor_in_range s) := by
  unfold cursor_in_range; infer_instance

/-- Specification-level `fill(char, color)` of the Frame Buffer Driver, written
from the words of the specification ("sets every cell in the surface to the given
character/color pair"); it is compared with the loop of `terminal_clear`. -/
def fill_spec (c color : Nat) (s : Terminal) : Terminal :=
  { s with terminal_buffer := fun j =>
      if j < VGA_WIDTH * VGA_HEIGHT then vga_entry c color else s.terminal_buffer j }

/-- A concrete state used to instantiate the theorems: cursor at the origin,
light grey on black, every cell a blank. -/
def sample_state : Terminal :=
  { terminal_row := 0
    terminal_column := 0
    terminal_color := 7
    terminal_buffer := fun _ => 1824
    scroll_calls := 0 }

/-- Memory `buf` after the `n` cells starting at index `base` received the
bytes `data 0 .. data (n - 1)` packed with `color`. -/
def write_span (buf : Nat → Nat) (base n : Nat) (data : Nat → Nat) (color : Nat) :
    Nat → Nat :=
  fun j => if base ≤ j ∧ j < base + n then vga_entry (data (j - base)) color else buf j

/-- Bytes of an ASCII string literal of the source, without the terminating NUL. -/
def c_string (str : String) : List Nat :=
  str.toList.map (fun ch => ch.toNat % 256)

/-- A sequence of `terminal_putchar` calls, one per byte of `cs`, in order. -/
def putchar_seq (cs : List Nat) (s : Terminal) : Terminal :=
  cs.foldl (fun t c => terminal_putchar c t) s

/-- Two surfaces hold the same character codes, the first with colour byte `k`
everywhere and the second with colour byte 7 everywhere. -/
def cells_rel (k : Nat) (b1 b2 : Nat → Nat) : Prop :=
  ∀ j, j < 2000 → b1 j % 256 = b2 j % 256 ∧ b1 j / 256 = k ∧ b2 j / 256 = 7

/-- Two terminal states that differ only in colour: equal in-range cursors,
current colours `k` and 7, and surfaces related by `cells_rel`. -/
def colour_rel (k : Nat) (t1 t2 : Terminal) : Prop :=
  t1.terminal_row = t2.terminal_row ∧ t1.terminal_column = t2.terminal_column ∧
  t1.terminal_row < 25 ∧ t1.terminal_column < 80 ∧
  t1.terminal_color = k ∧ t2.terminal_color = 7 ∧
  cells_rel k t1.terminal_buffer t2.terminal_buffer

/-- Index of the first zero byte of `data`, or its length when it has none (the
position of the NUL terminator understood after the list). -/
def first_nul : List Nat → Nat
  | [] => 0
  | c :: rest => if c = 0 then 0 else first_nul rest + 1

/-- The manual rendering of a string: every newline is replaced by an explicit
`terminal_set_cursor` to the start of the next row, every other byte goes through
`terminal_putchar`. -/
def manual_interleave : List Nat → Terminal → Terminal
  | [], s => s
  | c :: rest, s =>
    if c = NEWLINE then
      manual_interleave rest (terminal_set_cursor ((s.terminal_row + 1 : Nat) : Int) 0 s)
    else
      manual_interleave rest (terminal_putchar c s)

/-- One line break: `none` is a newline sent through `terminal_putchar`, `some
data` is a full line of 80 bytes `data 0 .. data 79` sent through `terminal_write`. -/
def line_break (b : Option (Nat → Nat)) (s : Terminal) : Terminal :=
  match b with
  | none => terminal_putchar NEWLINE s
  | some data => terminal_write data 80 s

/-- A sequence of line breaks, in order. -/
def line_breaks (bs : List (Option (Nat → Nat))) (s : Terminal) : Terminal :=
  bs.foldl (fun t b => line_break b t) s

/-- Embedding of `delay`: the busy-wait loop touches no terminal state, so it is
the identity on the terminal (its duration is not modelled). -/
def delay (_count : Int) (s : Terminal) : Terminal := s

/-- Embedding of `draw_marstech_logo`. -/
def draw_marstech_logo (s : Terminal) : Terminal :=
  let logo_color := vga_entry_color VGA_COLOR_WHITE VGA_COLOR_BLUE
  let s1 := terminal_setcolor logo_color s
  let s2 := terminal_set_cursor 5 15 s1
  let s3 := terminal_writestring
    (c_string " __  __    _    ____  ____ _____ _____ ____ _   _ ") s2
  let s4 := terminal_set_cursor 6 15 s3
  let s5 := terminal_writestring
    (c_string "|  \\/  |  / \\  |  _ \\/ ___|_   _| ____/ ___| | | |") s4
  let s6 := terminal_set_cursor 7 15 s5
  let s7 := terminal_writestring
    (c_string "| |\\/| | / _ \\ | |_) \\___ \\ | | |  _|| |   | |_| |") s6
  let s8 := terminal_set_cursor 8 15 s7
  let s9 := terminal_writestring
    (c_string "| |  | |/ ___ \\|  _ < ___) || | | |__| |___|  _  |") s8
  let s10 := terminal_set_cursor 9 15 s9
  terminal_writestring
    (c_string "|_|  |_/_/   \\_\\_| \\_\\____/ |_| |_____\\____|_| |_|") s10

/-- Embedding of `draw_welcome_message_with_fade`; `message[i]` reads the byte `i`
of the literal. -/
def draw_welcome_message_with_fade (s : Terminal) : Terminal :=
  let message := c_string "WELCOME TO MARSTECH"
  let message_length := 19
  let start_col := 25
  let start_row := 13
  forLoop 16 (fun intensity t =>
    let color := vga_entry_color intensity VGA_COLOR_BLUE
    let t1 := terminal_set_cursor 13 25 t
    let t2 := forLoop message_length (fun i u =>
      terminal_putentryat (message.getD i 0) color (start_col + i) start_row u) t1
    delay 1 t2) s

/-- Embedding of `show_welcome_screen`. -/
def show_welcome_screen (s : Terminal) : Terminal :=
  let bg_color := vga_entry_color VGA_COLOR_WHITE VGA_COLOR_BLUE
  let s1 := forLoop VGA_HEIGHT (fun y t =>
    forLoop VGA_WIDTH (fun x u => terminal_putentryat SPACE bg_color x y u) t) s
  let s2 := draw_marstech_logo s1
  let s3 := draw_welcome_message_with_fade s2
  let s4 := delay 80 s3
  terminal_clear s4

/-- Embedding of `kernel_main`. -/
def kernel_main (s : Terminal) : Terminal :=
  let s1 := terminal_initialize s
  let s2 := show_welcome_screen s1
  let s3 := terminal_setcolor (vga_entry_color VGA_COLOR_WHITE VGA_COLOR_BLACK) s2
  let s4 := terminal_clear s3
  let s5 := terminal_writestring
    (c_string "\n\n                          WELCOME TO MARSTECH OS!\n\n") s4
  let s6 := terminal_setcolor (vga_entry_color VGA_COLOR_WHITE VGA_COLOR_BLACK) s5
  let s7 := terminal_writestring (c_string "SUCCESSFULLY ENTERED THE LONG MODE.\n") s6
  let s8 := terminal_setcolor (vga_entry_color VGA_COLOR_WHITE VGA_COLOR_BLACK) s7
  let s9 := terminal_writestring (c_string "Futher Development on the process\n") s8
  let s10 := terminal_setcolor (vga_entry_color VGA_COLOR_WHITE VGA_COLOR_BLACK) s9
  let s11 := terminal_writestring
    (c_string "                                  Complete OS Coming Soon\n\n") s10
  let s12 := terminal_setcolor (vga_entry_color VGA_COLOR_WHITE VGA_COLOR_BLACK) s11
  let s13 := terminal_writestring
    (c_string "Developer M.N.Fatheen\nProud to be the Student of MARSTECH\n\nSpecial Thanks to my lecturer RAMZEEN SIR for his guidance\nmotivation and support\n")
    s12
  let s14 := terminal_setcolor (vga_entry_color VGA_COLOR_WHITE VGA_COLOR_BLACK) s13
  terminal_writestring
    (c_string "\n                      MARS TECHNOLOGY SYSTEMS READY.\n") s14

/-- Cursor effect of one byte on an in-range cursor `(row, col)`, or `none` when
the byte would make `terminal_putchar` scroll.  A proof device: it is shown to
agree with `terminal_putchar`. -/
def cursor_step (c : Nat) (p : Nat × Nat) : Option (Nat × Nat) :=
  if c = NEWLINE then
    if p.1 + 1 < 25 then some (p.1 + 1, 0) else none
  else if p.2 + 1 < 80 then some (p.1, p.2 + 1)
  else if p.1 + 1 < 25 then some (p.1 + 1, 0)
  else none

/-- Cursor effect of a whole string (up to its first zero byte), or `none` when
some byte would scroll.  A proof device: it is shown to agree with
`terminal_writestring`. -/
def cursor_run : List Nat → Nat × Nat → Option (Nat × Nat)
  | [], p => some p
  | c :: rest, p =>
    if c = 0 then some p
    else
      match cursor_step c p with
      | none => none
      | some q => cursor_run rest q

/-- Invariant of the splash sequence relative to the state `s0` at entry of
`kernel_main`: no scroll so far, current colour `k`, memory past the surface
untouched. -/
def splash_inv (s0 : Terminal) (k : Nat) (t : Terminal) : Prop :=
  t.scroll_calls = s0.scroll_calls ∧ t.terminal_color = k ∧
  ∀ j, 2000 ≤ j → t.terminal_buffer j = s0.terminal_buffer j

/-- Invariant of the text part of `kernel_main` relative to the state `s0` at
entry: cursor at the in-range position `(r, c)`, current colour white on black,
no scroll so far, memory past the surface untouched, every cell of the surface
with colour byte white on black. -/
def main_inv (s0 : Terminal) (r c : Nat) (t : Terminal) : Prop :=
  t.terminal_row = r ∧ t.terminal_column = c ∧ r < 25 ∧ c < 80 ∧
  t.terminal_color = 15 ∧ t.scroll_calls = s0.scroll_calls ∧
  (∀ j, 2000 ≤ j → t.terminal_buffer j = s0.terminal_buffer j) ∧
  (∀ j, j < 2000 → t.terminal_buffer j / 256 = 15)

/-! ## Loops and stores -/

@[simp] theorem forLoop_zero {σ : Type} (body : Nat → σ → σ) (s : σ) :
    forLoop 0 body s = s := rfl

@[simp] theorem forLoop_succ {σ : Type} (k : Nat) (body : Nat → σ → σ) (s : σ) :
    forLoop (k + 1) body s = body k (forLoop k body s) := rfl

theorem cell_index_eq (x y : Nat) (hx : x < 80) (hy : y < 25) :
    cell_index x y = y * 80 + x := by
  unfold cell_index VGA_WIDTH SIZE_MOD
  omega

/-- Closed form of the inner loop that blanks the first `k` cells of row `y`. -/
theorem blank_row_loop (y : Nat) (hy : y < 25) (k : Nat) (hk : k ≤ 80) (t : Terminal) :
    forLoop k (fun x u => store (cell_index x y) (vga_entry SPACE u.terminal_color) u) t
      = { t with terminal_buffer := fun j =>
            if y * 80 ≤ j ∧ j < y * 80 + k then vga_entry SPACE t.terminal_color
            else t.terminal_buffer j } := by
  induction k with
  | zero =>
    simp only [forLoop_zero]
    ext <;> first | rfl | exact (if_neg (by omega)).symm
  | succ k ih =>
    rw [forLoop_succ, ih (by omega), cell_index_eq k y (by omega) hy]
    ext <;> try rfl
    rename_i j
    simp only [store, put_cell]
    by_cases h : j = y * 80 + k
    · subst h
      simp
    · have h3 : (y * 80 ≤ j ∧ j < y * 80 + (k + 1)) ↔ (y * 80 ≤ j ∧ j < y * 80 + k) := by
        omega
      simp only [h, if_false, h3]

/-- Closed form of the nested loop that blanks the first `m` rows. -/
theorem blank_rows_loop (m : Nat) (hm : m ≤ 25) (s : Terminal) :
    forLoop m (fun y t =>
      forLoop VGA_WIDTH (fun x u =>
        store (cell_index x y) (vga_entry SPACE u.terminal_color) u) t) s
      = { s with terminal_buffer := fun j =>
            if j < m * 80 then vga_entry SPACE s.terminal_color else s.terminal_buffer j } := by
  induction m with
  | zero =>
    simp only [forLoop_zero]
    ext <;> rfl
  | succ m ih =>
    rw [forLoop_succ, ih (by omega)]
    unfold VGA_WIDTH
    rw [blank_row_loop m (by omega) 80 (le_refl 80)]
    ext <;> try rfl
    rename_i j
    simp only
    by_cases h1 : j < m * 80
    · have h2 : j < (m + 1) * 80 := by omega
      simp [h1, h2]
    · by_cases h2 : j < (m + 1) * 80
      · have h3 : m * 80 ≤ j ∧ j < m * 80 + 80 := by omega
        simp [h2, h3]
      · have h3 : ¬ (m * 80 ≤ j ∧ j < m * 80 + 80) := by omega
        simp [h1, h2, h3]

/-- Closed form of the inner copy loop of `terminal_scroll` on row `y`. -/
theorem copy_row_loop (y : Nat) (hy : y < 24) (k : Nat) (hk : k ≤ 80) (t : Terminal) :
    forLoop k (fun x u =>
        store (cell_index x y) (u.terminal_buffer (cell_index x (y + 1))) u) t
      = { t with terminal_buffer := fun j =>
            if y * 80 ≤ j ∧ j < y * 80 + k then t.terminal_buffer (j + 80)
            else t.terminal_buffer j } := by
  induction k with
  | zero =>
    simp only [forLoop_zero]
    ext <;> first | rfl | exact (if_neg (by omega)).symm
  | succ k ih =>
    rw [forLoop_succ, ih (by omega), cell_index_eq k y (by omega) (by omega),
      cell_index_eq k (y + 1) (by omega) (by omega)]
    ext <;> try rfl
    rename_i j
    simp only [store, put_cell]
    have hsrc : ¬ (y * 80 ≤ (y + 1) * 80 + k ∧ (y + 1) * 80 + k < y * 80 + k) := by omega
    by_cases h : j = y * 80 + k
    · subst h
      have h4 : y * 80 + k + 80 = (y + 1) * 80 + k := by omega
      simp [hsrc, h4]
    · have h3 : (y * 80 ≤ j ∧ j < y * 80 + (k + 1)) ↔ (y * 80 ≤ j ∧ j < y * 80 + k) := by
        omega
      simp only [h, if_false, h3]

/-- Closed form of the nested copy loop of `terminal_scroll` after `m` rows. -/
theorem copy_rows_loop (m : Nat) (hm : m ≤ 24) (s : Terminal) :
    forLoop m (fun y t =>
      forLoop VGA_WIDTH (fun x u =>
        store (cell_index x y) (u.terminal_buffer (cell_index x (y + 1))) u) t) s
      = { s with terminal_buffer := fun j =>
            if j < m * 80 then s.terminal_buffer (j + 80) else s.terminal_buffer j } := by
  induction m with
  | zero =>
    simp only [forLoop_zero]
    ext <;> rfl
  | succ m ih =>
    rw [forLoop_succ, ih (by omega)]
    unfold VGA_WIDTH
    rw [copy_row_loop m (by omega) 80 (le_refl 80)]
    ext <;> try rfl
    rename_i j
    simp only
    by_cases h1 : j < m * 80
    · have h2 : j < (m + 1) * 80 := by omega
      have h3 : ¬ (m * 80 ≤ j ∧ j < m * 80 + 80) := by omega
      simp [h1, h2, h3]
    · by_cases h2 : j < (m + 1) * 80
      · have h3 : m * 80 ≤ j ∧ j < m * 80 + 80 := by omega
        have h4 : ¬ (j + 80 < m * 80) := by omega
        simp [h2, h3, h4]
      · have h3 : ¬ (m * 80 ≤ j ∧ j < m * 80 + 80) := by omega
        simp [h1, h2, h3]

/-- Closed form of `terminal_scroll`. -/
theorem terminal_scroll_eq (s : Terminal) :
    terminal_scroll s
      = { s with
          terminal_buffer := fun j =>
            if j < 1920 then s.terminal_buffer (j + 80)
            else if j < 2000 then vga_entry SPACE s.terminal_color
            else s.terminal_buffer j
          scroll_calls := s.scroll_calls + 1 } := by
  unfold terminal_scroll
  simp only [show VGA_HEIGHT - 1 = 24 from rfl]
  rw [copy_rows_loop 24 (le_refl 24)]
  unfold VGA_WIDTH
  rw [blank_row_loop 24 (by omega) 80 (le_refl 80)]
  ext <;> try rfl
  rename_i j
  simp only
  by_cases h1 : j < 1920
  · have h3 : ¬ (24 * 80 ≤ j ∧ j < 24 * 80 + 80) := by omega
    simp [h1, h3]
  · by_cases h2 : j < 2000
    · have h3 : 24 * 80 ≤ j ∧ j < 24 * 80 + 80 := by omega
      simp [h1, h2, h3]
    · have h3 : ¬ (24 * 80 ≤ j ∧ j < 24 * 80 + 80) := by omega
      simp [h1, h2, h3]

/-! ## Closed forms of `terminal_putchar` on an in-range cursor -/

/-- Packing of a cell in arithmetic form. -/
theorem vga_entry_eq (uc color : Nat) :
    vga_entry uc color = uc % 256 + 256 * (color % 256) := by
  unfold vga_entry
  have h1 : uc % 256 < 2 ^ 8 := by omega
  have h2 : 2 ^ 8 * (color % 256) + uc % 256 = 2 ^ 8 * (color % 256) ||| uc % 256 :=
    Nat.mul_add_lt_is_or h1 _
  rw [Nat.lor_comm, Nat.shiftLeft_eq, Nat.mul_comm (color % 256), ← h2]
  omega

/-- A printable byte away from the right margin: one store, column plus one. -/
theorem putchar_advance (c : Nat) (s : Terminal) (hnl : c ≠ NEWLINE)
    (hr : s.terminal_row < 25) (hc : s.terminal_column + 1 < 80) :
    terminal_putchar c s
      = { s with
          terminal_buffer := put_cell s.terminal_buffer
            (s.terminal_row * 80 + s.terminal_column) (vga_entry c s.terminal_color)
          terminal_column := s.terminal_column + 1 } := by
  unfold terminal_putchar terminal_putentryat
  rw [if_neg hnl, cell_index_eq _ _ (by omega) hr]
  have h1 : (s.terminal_column + 1) % SIZE_MOD = s.terminal_column + 1 := by
    unfold SIZE_MOD; omega
  simp only [store, put_cell, h1]
  rw [if_neg (by unfold VGA_WIDTH; omega)]

/-- A printable byte in the last column of a row above the bottom row. -/
theorem putchar_wrap (c : Nat) (s : Terminal) (hnl : c ≠ NEWLINE)
    (hr : s.terminal_row + 1 < 25) (hc : s.terminal_column + 1 = 80) :
    terminal_putchar c s
      = { s with
          terminal_buffer := put_cell s.terminal_buffer
            (s.terminal_row * 80 + s.terminal_column) (vga_entry c s.terminal_color)
          terminal_column := 0
          terminal_row := s.terminal_row + 1 } := by
  unfold terminal_putchar terminal_putentryat
  rw [if_neg hnl, cell_index_eq _ _ (by omega) (by omega)]
  have h1 : (s.terminal_column + 1) % SIZE_MOD = 80 := by
    unfold SIZE_MOD; omega
  have h2 : (s.terminal_row + 1) % SIZE_MOD = s.terminal_row + 1 := by
    unfold SIZE_MOD; omega
  simp only [store, put_cell, h1, advance_row, h2]
  rw [if_pos (by rfl), if_neg (by unfold VGA_HEIGHT; omega)]

/-- A printable byte in the last column of the bottom row: store, then scroll. -/
theorem putchar_wrap_scroll (c : Nat) (s : Terminal) (hnl : c ≠ NEWLINE)
    (hr : s.terminal_row + 1 = 25) (hc : s.terminal_column + 1 = 80) :
    terminal_putchar c s
      = { terminal_scroll { s with
            terminal_buffer := put_cell s.terminal_buffer
              (s.terminal_row * 80 + s.terminal_column) (vga_entry c s.terminal_color) } with
          terminal_column := 0
          terminal_row := 24 } := by
  unfold terminal_putchar terminal_putentryat
  rw [if_neg hnl, cell_index_eq _ _ (by omega) (by omega)]
  have h1 : (s.terminal_column + 1) % SIZE_MOD = 80 := by
    unfold SIZE_MOD; omega
  have h2 : (s.terminal_row + 1) % SIZE_MOD = 25 := by
    unfold SIZE_MOD; omega
  simp only [store, put_cell, h1, advance_row, h2]
  rw [if_pos (by rfl), if_pos (by rfl)]
  simp only [terminal_scroll_eq]
  rfl

/-- A newline above the bottom row. -/
theorem putchar_newline (s : Terminal) (hr : s.terminal_row + 1 < 25) :
    terminal_putchar NEWLINE s
      = { s with terminal_column := 0, terminal_row := s.terminal_row + 1 } := by
  unfold terminal_putchar
  have h2 : (s.terminal_row + 1) % SIZE_MOD = s.terminal_row + 1 := by
    unfold SIZE_MOD; omega
  simp only [if_true, advance_row, h2]
  rw [if_neg (by unfold VGA_HEIGHT; omega)]

/-- A newline on the bottom row. -/
theorem putchar_newline_scroll (s : Terminal) (hr : s.terminal_row + 1 = 25) :
    terminal_putchar NEWLINE s
      = { terminal_scroll s with terminal_column := 0, terminal_row := 24 } := by
  unfold terminal_putchar
  have h2 : (s.terminal_row + 1) % SIZE_MOD = 25 := by
    unfold SIZE_MOD; omega
  simp only [if_true, advance_row, h2]
  rw [if_pos (by rfl)]
  simp only [terminal_scroll_eq]
  rfl

/-- Closed form of `terminal_initialize`. -/
theorem terminal_initialize_eq (s : Terminal) :
    terminal_initialize s
      = { s with
          terminal_row := 0
          terminal_column := 0
          terminal_color := 7
          terminal_buffer := fun j => if j < 2000 then 1824 else s.terminal_buffer j } := by
  unfold terminal_initialize
  rw [show VGA_HEIGHT = 25 from rfl, blank_rows_loop 25 (le_refl 25)]
  ext <;> first | rfl | skip
  rename_i j
  show (if j < 25 * 80 then vga_entry SPACE (vga_entry_color 7 0) else s.terminal_buffer j)
    = if j < 2000 then 1824 else s.terminal_buffer j
  rw [show vga_entry SPACE (vga_entry_color 7 0) = 1824 from by decide]

/-- Closed form of `terminal_clear`. -/
theorem terminal_clear_eq (s : Terminal) :
    terminal_clear s
      = { s with
          terminal_row := 0
          terminal_column := 0
          terminal_buffer := fun j =>
            if j < 2000 then vga_entry SPACE s.terminal_color else s.terminal_buffer j } := by
  unfold terminal_clear
  rw [show VGA_HEIGHT = 25 from rfl, blank_rows_loop 25 (le_refl 25)]

/-- Form of `putchar_advance` on an explicit state. -/
theorem putchar_advance_mk (c r col color : Nat) (buf : Nat → Nat) (calls : Nat)
    (hnl : c ≠ NEWLINE) (hr : r < 25) (hc : col + 1 < 80) :
    terminal_putchar c ⟨r, col, color, buf, calls⟩
      = ⟨r, col + 1, color, put_cell buf (r * 80 + col) (vga_entry c color), calls⟩ :=
  putchar_advance c ⟨r, col, color, buf, calls⟩ hnl hr hc

/-- Form of `putchar_wrap` on an explicit state. -/
theorem putchar_wrap_mk (c r col color : Nat) (buf : Nat → Nat) (calls : Nat)
    (hnl : c ≠ NEWLINE) (hr : r + 1 < 25) (hc : col + 1 = 80) :
    terminal_putchar c ⟨r, col, color, buf, calls⟩
      = ⟨r + 1, 0, color, put_cell buf (r * 80 + col) (vga_entry c color), calls⟩ :=
  putchar_wrap c ⟨r, col, color, buf, calls⟩ hnl hr hc

/-- Form of `putchar_wrap_scroll` on an explicit state. -/
theorem putchar_wrap_scroll_mk (c r col color : Nat) (buf : Nat → Nat) (calls : Nat)
    (hnl : c ≠ NEWLINE) (hr : r + 1 = 25) (hc : col + 1 = 80) :
    terminal_putchar c ⟨r, col, color, buf, calls⟩
      = { terminal_scroll
            ⟨r, col, color, put_cell buf (r * 80 + col) (vga_entry c color), calls⟩ with
          terminal_column := 0
          terminal_row := 24 } :=
  putchar_wrap_scroll c ⟨r, col, color, buf, calls⟩ hnl hr hc

/-- Form of `putchar_newline` on an explicit state. -/
theorem putchar_newline_mk (r col color : Nat) (buf : Nat → Nat) (calls : Nat)
    (hr : r + 1 < 25) :
    terminal_putchar NEWLINE ⟨r, col, color, buf, calls⟩ = ⟨r + 1, 0, color, buf, calls⟩ :=
  putchar_newline ⟨r, col, color, buf, calls⟩ hr

/-- Form of `putchar_newline_scroll` on an explicit state. -/
theorem putchar_newline_scroll_mk (r col color : Nat) (buf : Nat → Nat) (calls : Nat)
    (hr : r + 1 = 25) :
    terminal_putchar NEWLINE ⟨r, col, color, buf, calls⟩
      = { terminal_scroll ⟨r, col, color, buf, calls⟩ with
          terminal_column := 0
          terminal_row := 24 } :=
  putchar_newline_scroll ⟨r, col, color, buf, calls⟩ hr

/-! ## Closed forms of `terminal_write` inside one row -/

/-- Extending a span by one cell at its end. -/
theorem write_span_put (buf : Nat → Nat) (base n : Nat) (data : Nat → Nat) (color : Nat) :
    put_cell (write_span buf base n data color) (base + n) (vga_entry (data n) color)
      = write_span buf base (n + 1) data color := by
  funext j
  simp only [write_span, put_cell]
  by_cases h : j = base + n
  · subst h
    rw [if_pos rfl, if_pos (by omega)]
    congr 2
    omega
  · rw [if_neg h]
    have h3 : (base ≤ j ∧ j < base + (n + 1)) ↔ (base ≤ j ∧ j < base + n) := by omega
    simp only [h3]

/-- Writing `n` non-newline bytes that do not reach the right margin. -/
theorem write_within_row (data : Nat → Nat) (n : Nat) (s : Terminal)
    (hr : s.terminal_row < 25) (hlen : s.terminal_column + n < 80)
    (hnl : ∀ i, i < n → data i ≠ NEWLINE) :
    terminal_write data n s
      = { s with
          terminal_buffer := write_span s.terminal_buffer
            (s.terminal_row * 80 + s.terminal_column) n data s.terminal_color
          terminal_column := s.terminal_column + n } := by
  unfold terminal_write
  induction n with
  | zero =>
    simp only [forLoop_zero]
    ext <;> first | rfl | skip
    rename_i j
    simp only [write_span]
    rw [if_neg (by omega)]
  | succ n ih =>
    rw [forLoop_succ, ih (by omega) (fun i hi => hnl i (by omega))]
    rw [putchar_advance_mk _ _ _ _ _ _ (hnl n (by omega)) hr (by omega)]
    rw [← Nat.add_assoc (s.terminal_row * 80), write_span_put]
    rfl

/-- Writing a full row of 80 non-newline bytes from column 0 above the bottom row. -/
theorem write_full_row (data : Nat → Nat) (s : Terminal)
    (hr : s.terminal_row + 1 < 25) (hc : s.terminal_column = 0)
    (hnl : ∀ i, i < 80 → data i ≠ NEWLINE) :
    terminal_write data 80 s
      = { s with
          terminal_buffer := write_span s.terminal_buffer
            (s.terminal_row * 80) 80 data s.terminal_color
          terminal_column := 0
          terminal_row := s.terminal_row + 1 } := by
  have h79 := write_within_row data 79 s (by omega) (by omega) (fun i hi => hnl i (by omega))
  unfold terminal_write at h79 ⊢
  rw [forLoop_succ, h79, hc,
    putchar_wrap_mk _ _ _ _ _ _ (hnl 79 (by omega)) hr rfl, write_span_put]
  rfl

/-- Writing a full row of 80 non-newline bytes from column 0 of the bottom row. -/
theorem write_full_row_scroll (data : Nat → Nat) (s : Terminal)
    (hr : s.terminal_row + 1 = 25) (hc : s.terminal_column = 0)
    (hnl : ∀ i, i < 80 → data i ≠ NEWLINE) :
    terminal_write data 80 s
      = { terminal_scroll
            { s with
              terminal_buffer := write_span s.terminal_buffer
                (s.terminal_row * 80) 80 data s.terminal_color } with
          terminal_column := 0
          terminal_row := 24 } := by
  have h79 := write_within_row data 79 s (by omega) (by omega) (fun i hi => hnl i (by omega))
  unfold terminal_write at h79 ⊢
  rw [forLoop_succ, h79, hc,
    putchar_wrap_scroll_mk _ _ _ _ _ _ (hnl 79 (by omega)) hr rfl, write_span_put]
  simp only [terminal_scroll_eq]
  rfl

/-! ## Unfolding `terminal_writestring` -/

theorem writestring_nil (s : Terminal) : terminal_writestring [] s = s := rfl

theorem writestring_cons (c : Nat) (rest : List Nat) (s : Terminal) (h : c ≠ 0) :
    terminal_writestring (c :: rest) s = terminal_writestring rest (terminal_putchar c s) := by
  rw [terminal_writestring, if_neg h]

/-- State reached by writing the five bytes of "AB\nCD" after initialisation. -/
theorem writestring_ab_cd (s : Terminal) :
    terminal_writestring (c_string "AB\nCD") ( terminal_initialize s)
      = ⟨1, 2, 7,
          put_cell (put_cell (put_cell (put_cell
            (fun j => if j < 2000 then 1824 else s.terminal_buffer j)
            0 (vga_entry 65 7)) 1 (vga_entry 66 7)) 80 (vga_entry 67 7)) 81 (vga_entry 68 7),
          s.scroll_calls⟩ := by
  have hs : c_string "AB\nCD" = [65, 66, NEWLINE, 67, 68] := by decide
  rw [hs, terminal_initialize_eq]
  rw [writestring_cons _ _ _ (by decide),
    putchar_advance_mk 65 0 0 7 _ _ (by decide) (by decide) (by decide)]
  rw [writestring_cons _ _ _ (by decide),
    putchar_advance_mk 66 0 1 7 _ _ (by decide) (by decide) (by decide)]
  rw [writestring_cons _ _ _ (by decide), putchar_newline_mk 0 2 7 _ _ (by decide)]
  rw [writestring_cons _ _ _ (by decide),
    putchar_advance_mk 67 1 0 7 _ _ (by decide) (by decide) (by decide)]
  rw [writestring_cons _ _ _ (by decide),
    putchar_advance_mk 68 1 1 7 _ _ (by decide) (by decide) (by decide)]
  rw [writestring_nil]

/-- Setting the cursor to values that fit in `size_t` stores them unchanged. -/
theorem set_cursor_nat (r c : Nat) (hr : r < SIZE_MOD) (hc : c < SIZE_MOD) (s : Terminal) :
    terminal_set_cursor (r : Int) (c : Int) s
      = { s with terminal_row := r, terminal_column := c } := by
  unfold terminal_set_cursor
  have h1 : ((r : Int) % (SIZE_MOD : Int)).toNat = r := by
    rw [← Int.ofNat_emod, Int.toNat_ofNat, Nat.mod_eq_of_lt hr]
  have h2 : ((c : Int) % (SIZE_MOD : Int)).toNat = c := by
    rw [← Int.ofNat_emod, Int.toNat_ofNat, Nat.mod_eq_of_lt hc]
  rw [h1, h2]

/-- State before the scroll in the bottom-right scenario. -/
theorem bottom_right_pre (s : Terminal) :
    terminal_putentryat 88 7 79 24 (terminal_set_cursor 24 79 ( terminal_initialize s))
      = ⟨24, 79, 7,
          put_cell (fun j => if j < 2000 then 1824 else s.terminal_buffer j) 1999 1880,
          s.scroll_calls⟩ := by
  have h := set_cursor_nat 24 79 (by decide) (by decide) ( terminal_initialize s)
  simp only [Nat.cast_ofNat] at h
  rw [h, terminal_initialize_eq]
  unfold terminal_putentryat
  rw [cell_index_eq 79 24 (by omega) (by omega)]
  rfl

/-- State after the write in the bottom-right scenario. -/
theorem bottom_right_post (s : Terminal) :
    terminal_putchar 88 (terminal_set_cursor 24 79 ( terminal_initialize s))
      = ⟨24, 0, 7,
          fun j =>
            if j < 1920 then
              put_cell (fun j => if j < 2000 then 1824 else s.terminal_buffer j) 1999 1880 (j + 80)
            else if j < 2000 then 1824
            else put_cell (fun j => if j < 2000 then 1824 else s.terminal_buffer j) 1999 1880 j,
          s.scroll_calls + 1⟩ := by
  have h := set_cursor_nat 24 79 (by decide) (by decide) ( terminal_initialize s)
  simp only [Nat.cast_ofNat] at h
  rw [h, terminal_initialize_eq]
  rw [putchar_wrap_scroll_mk 88 24 79 7 _ _ (by decide) (by decide) (by decide),
    terminal_scroll_eq]
  have h1 : vga_entry 88 7 = 1880 := by decide
  have h2 : vga_entry SPACE 7 = 1824 := by decide
  simp only [h1, h2]

/-! ## Two runs that differ only in colour -/

theorem cells_rel_put (k c i : Nat) (b1 b2 : Nat → Nat) (hk : k < 256)
    (h : cells_rel k b1 b2) :
    cells_rel k (put_cell b1 i (vga_entry c k)) (put_cell b2 i (vga_entry c 7)) := by
  intro j hj
  simp only [put_cell]
  by_cases e : j = i
  · rw [if_pos e, if_pos e, vga_entry_eq, vga_entry_eq]
    omega
  · rw [if_neg e, if_neg e]
    exact h j hj

theorem cells_rel_scroll (k : Nat) (b1 b2 : Nat → Nat) (hk : k < 256)
    (h : cells_rel k b1 b2) :
    cells_rel k
      (fun j =>
        if j < 1920 then b1 (j + 80) else if j < 2000 then vga_entry SPACE k else b1 j)
      (fun j =>
        if j < 1920 then b2 (j + 80) else if j < 2000 then vga_entry SPACE 7 else b2 j) := by
  intro j hj
  simp only
  by_cases e : j < 1920
  · rw [if_pos e, if_pos e]
    exact h (j + 80) (by omega)
  · rw [if_neg e, if_neg e, if_pos hj, if_pos hj, vga_entry_eq, vga_entry_eq]
    unfold SPACE
    omega

/-- One `terminal_putchar` keeps two colour-related states related. -/
theorem colour_rel_putchar (k c : Nat) (t1 t2 : Terminal) (hk : k < 256)
    (h : colour_rel k t1 t2) :
    colour_rel k (terminal_putchar c t1) (terminal_putchar c t2) := by
  obtain ⟨r1, c1, k1, b1, n1⟩ := t1
  obtain ⟨r2, c2, k2, b2, n2⟩ := t2
  obtain ⟨hr, hc, hr25, hc80, hk1, hk2, hb⟩ := h
  simp only at hr hc hr25 hc80 hk1 hk2 hb
  subst hr hc hk1 hk2
  by_cases hnl : c = NEWLINE
  · subst hnl
    by_cases hrow : r1 + 1 < 25
    · rw [putchar_newline_mk _ _ _ _ _ hrow, putchar_newline_mk _ _ _ _ _ hrow]
      exact ⟨rfl, rfl, hrow, (by decide : (0 : Nat) < 80), rfl, rfl, hb⟩
    · rw [putchar_newline_scroll_mk _ _ _ _ _ (by omega),
        putchar_newline_scroll_mk _ _ _ _ _ (by omega), terminal_scroll_eq, terminal_scroll_eq]
      exact ⟨rfl, rfl, (by decide : (24 : Nat) < 25), (by decide : (0 : Nat) < 80), rfl, rfl,
        cells_rel_scroll _ _ _ hk hb⟩
  · by_cases hcol : c1 + 1 < 80
    · rw [putchar_advance_mk _ _ _ _ _ _ hnl hr25 hcol,
        putchar_advance_mk _ _ _ _ _ _ hnl hr25 hcol]
      exact ⟨rfl, rfl, hr25, hcol, rfl, rfl, cells_rel_put _ _ _ _ _ hk hb⟩
    · by_cases hrow : r1 + 1 < 25
      · rw [putchar_wrap_mk _ _ _ _ _ _ hnl hrow (by omega),
          putchar_wrap_mk _ _ _ _ _ _ hnl hrow (by omega)]
        exact ⟨rfl, rfl, hrow, (by decide : (0 : Nat) < 80), rfl, rfl,
          cells_rel_put _ _ _ _ _ hk hb⟩
      · rw [putchar_wrap_scroll_mk _ _ _ _ _ _ hnl (by omega) (by omega),
          putchar_wrap_scroll_mk _ _ _ _ _ _ hnl (by omega) (by omega),
          terminal_scroll_eq, terminal_scroll_eq]
        exact ⟨rfl, rfl, (by decide : (24 : Nat) < 25), (by decide : (0 : Nat) < 80), rfl, rfl,
          cells_rel_scroll _ _ _ hk (cells_rel_put _ _ _ _ _ hk hb)⟩

/-- A sequence of `terminal_putchar` calls keeps two colour-related states related. -/
theorem colour_rel_putchar_seq (k : Nat) (cs : List Nat) (hk : k < 256) :
    ∀ t1 t2 : Terminal, colour_rel k t1 t2 →
      colour_rel k (putchar_seq cs t1) (putchar_seq cs t2) := by
  induction cs with
  | nil => intro t1 t2 h; exact h
  | cons c rest ih =>
    intro t1 t2 h
    exact ih _ _ (colour_rel_putchar k c t1 t2 hk h)

/-- The states after `terminal_clear` and after `terminal_initialize` are related. -/
theorem colour_rel_start (s : Terminal) (hk : s.terminal_color < 256) :
    colour_rel s.terminal_color (terminal_clear s) ( terminal_initialize s) := by
  rw [terminal_clear_eq, terminal_initialize_eq]
  refine ⟨rfl, rfl, (by decide : (0 : Nat) < 25), (by decide : (0 : Nat) < 80), rfl, rfl, ?_⟩
  intro j hj
  simp only
  rw [if_pos hj, if_pos hj, vga_entry_eq]
  unfold SPACE
  omega

/-! ## Single-character writes, scrolling, initialisation and clearing -/

/-- C1: on an in-range cursor a byte `c` other than newline is stored at the
cursor cell with the current colour; away from the right margin the column grows
by one, in the last column of a row above the bottom the cursor goes to the start
of the next row, and in the last column of the bottom row `terminal_scroll` runs
once after the store and the cursor ends at (24, 0).  Only the cursor cell is
stored to, and the current colour never changes. -/
theorem C1_putchar_printable (s : Terminal) (c : Nat) (hcur : cursor_in_range s)
    (hbyte : c < 256) (hnl : c ≠ NEWLINE) :
    vga_entry c s.terminal_color % 256 = c ∧
    (terminal_putchar c s).terminal_color = s.terminal_color ∧
    (s.terminal_column + 1 < 80 →
      (terminal_putchar c s).terminal_buffer
          = put_cell s.terminal_buffer (s.terminal_row * 80 + s.terminal_column)
              (vga_entry c s.terminal_color) ∧
        (terminal_putchar c s).terminal_row = s.terminal_row ∧
        (terminal_putchar c s).terminal_column = s.terminal_column + 1 ∧
        (terminal_putchar c s).scroll_calls = s.scroll_calls) ∧
    (s.terminal_column + 1 = 80 → s.terminal_row + 1 < 25 →
      (terminal_putchar c s).terminal_buffer
          = put_cell s.terminal_buffer (s.terminal_row * 80 + s.terminal_column)
              (vga_entry c s.terminal_color) ∧
        (terminal_putchar c s).terminal_row = s.terminal_row + 1 ∧
        (terminal_putchar c s).terminal_column = 0 ∧
        (terminal_putchar c s).scroll_calls = s.scroll_calls) ∧
    (s.terminal_column + 1 = 80 → s.terminal_row + 1 = 25 →
      (terminal_putchar c s).terminal_buffer
          = (terminal_scroll
              { s with
                terminal_buffer := put_cell s.terminal_buffer
                  (s.terminal_row * 80 + s.terminal_column)
                  (vga_entry c s.terminal_color) }).terminal_buffer ∧
        (terminal_putchar c s).terminal_row = 24 ∧
        (terminal_putchar c s).terminal_column = 0 ∧
        (terminal_putchar c s).scroll_calls = s.scroll_calls + 1) := by
  obtain ⟨hr, hc⟩ := hcur
  unfold VGA_HEIGHT at hr
  unfold VGA_WIDTH at hc
  refine ⟨?_, ?_, ?_, ?_, ?_⟩
  · rw [vga_entry_eq]
    omega
  · by_cases h1 : s.terminal_column + 1 < 80
    · rw [putchar_advance c s hnl hr h1]
    · by_cases h2 : s.terminal_row + 1 < 25
      · rw [putchar_wrap c s hnl h2 (by omega)]
      · rw [putchar_wrap_scroll c s hnl (by omega) (by omega), terminal_scroll_eq]
  · intro h1
    rw [putchar_advance c s hnl hr h1]
    exact ⟨rfl, rfl, rfl, rfl⟩
  · intro h1 h2
    rw [putchar_wrap c s hnl h2 h1]
    exact ⟨rfl, rfl, rfl, rfl⟩
  · intro h1 h2
    rw [putchar_wrap_scroll c s hnl h2 h1]
    refine ⟨rfl, rfl, rfl, ?_⟩
    rw [terminal_scroll_eq]

/-- Instance of C1 at `sample_state` with the byte of the letter A. -/
theorem C1_putchar_printable_witness :
    (terminal_putchar 65 sample_state).terminal_color = 7 ∧
    (terminal_putchar 65 sample_state).terminal_column = 1 :=
  have h := C1_putchar_printable sample_state 65 (by decide) (by decide) (by decide)
  ⟨h.2.1, (h.2.2.1 (by decide)).2.2.1⟩

/-- C2: on an in-range cursor a newline stores no cell; above the bottom row the
buffer is untouched and the cursor goes to the start of the next row, on the
bottom row the buffer becomes that of `terminal_scroll` applied once and the
cursor is (24, 0).  The current colour never changes. -/
theorem C2_putchar_newline (s : Terminal) (hcur : cursor_in_range s) :
    (terminal_putchar NEWLINE s).terminal_color = s.terminal_color ∧
    (s.terminal_row + 1 < 25 →
      (terminal_putchar NEWLINE s).terminal_buffer = s.terminal_buffer ∧
        (terminal_putchar NEWLINE s).terminal_row = s.terminal_row + 1 ∧
        (terminal_putchar NEWLINE s).terminal_column = 0 ∧
        (terminal_putchar NEWLINE s).scroll_calls = s.scroll_calls) ∧
    (s.terminal_row + 1 = 25 →
      (terminal_putchar NEWLINE s).terminal_buffer = (terminal_scroll s).terminal_buffer ∧
        (terminal_putchar NEWLINE s).terminal_row = 24 ∧
        (terminal_putchar NEWLINE s).terminal_column = 0 ∧
        (terminal_putchar NEWLINE s).scroll_calls = s.scroll_calls + 1) := by
  obtain ⟨hr, _⟩ := hcur
  unfold VGA_HEIGHT at hr
  refine ⟨?_, ?_, ?_⟩
  · by_cases h2 : s.terminal_row + 1 < 25
    · rw [putchar_newline s h2]
    · rw [putchar_newline_scroll s (by omega), terminal_scroll_eq]
  · intro h2
    rw [putchar_newline s h2]
    exact ⟨rfl, rfl, rfl, rfl⟩
  · intro h2
    rw [putchar_newline_scroll s h2]
    refine ⟨rfl, rfl, rfl, ?_⟩
    rw [terminal_scroll_eq]

/-- Instance of C2 at `sample_state`. -/
theorem C2_putchar_newline_witness :
    (terminal_putchar NEWLINE sample_state).terminal_row = 1 ∧
    (terminal_putchar NEWLINE sample_state).terminal_column = 0 :=
  have h := C2_putchar_newline sample_state (by decide)
  ⟨(h.2.1 (by decide)).2.1, (h.2.1 (by decide)).2.2.1⟩

/-- C3: after `terminal_scroll` the cell at column `x` of row `y` is the previous
cell at column `x` of row `y + 1` for all `x < 80`, `y < 24`; every cell of row 24
is a space in the current colour; cursor and current colour are unchanged. -/
theorem C3_scroll (s : Terminal) :
    (∀ x y, x < 80 → y < 24 → cell_at (terminal_scroll s) x y = cell_at s x (y + 1)) ∧
    (∀ x, x < 80 → cell_at (terminal_scroll s) x 24 = vga_entry SPACE s.terminal_color) ∧
    (terminal_scroll s).terminal_row = s.terminal_row ∧
    (terminal_scroll s).terminal_column = s.terminal_column ∧
    (terminal_scroll s).terminal_color = s.terminal_color := by
  rw [terminal_scroll_eq]
  refine ⟨?_, ?_, rfl, rfl, rfl⟩
  · intro x y hx hy
    simp only [cell_at, VGA_WIDTH]
    rw [if_pos (by omega)]
    congr 1
    omega
  · intro x hx
    simp only [cell_at, VGA_WIDTH]
    rw [if_neg (by omega), if_pos (by omega)]

/-- C4: from any state `terminal_initialize` leaves every cell of the 80x25
surface equal to a space in light grey on black, that is 0x0720, the cursor at
(0, 0) and the current colour 0x07. -/
theorem C4_initialize_blank (s : Terminal) :
    (∀ x y, x < 80 → y < 25 → cell_at ( terminal_initialize s) x y = 0x0720) ∧
    vga_entry SPACE (vga_entry_color VGA_COLOR_LIGHT_GREY VGA_COLOR_BLACK) = 0x0720 ∧
    ( terminal_initialize s).terminal_row = 0 ∧
    ( terminal_initialize s).terminal_column = 0 ∧
    ( terminal_initialize s).terminal_color = 0x07 := by
  rw [terminal_initialize_eq]
  refine ⟨?_, ?_, rfl, rfl, rfl⟩
  · intro x y hx hy
    simp only [cell_at, VGA_WIDTH]
    rw [if_pos (by omega)]
  · decide

/-- C5: from any state `terminal_clear` leaves every cell of the surface equal to
a space in the colour that was current at the call, the cursor at (0, 0) and the
current colour unchanged; the whole state is that of `fill_spec` with a space and
the current colour followed by a cursor reset. -/
theorem C5_clear (s : Terminal) :
    (∀ x y, x < 80 → y < 25 →
      cell_at (terminal_clear s) x y = vga_entry SPACE s.terminal_color) ∧
    (terminal_clear s).terminal_row = 0 ∧
    (terminal_clear s).terminal_column = 0 ∧
    (terminal_clear s).terminal_color = s.terminal_color ∧
    terminal_clear s
      = { fill_spec SPACE s.terminal_color s with terminal_row := 0, terminal_column := 0 } := by
  rw [terminal_clear_eq]
  refine ⟨?_, rfl, rfl, rfl, rfl⟩
  intro x y hx hy
  simp only [cell_at, VGA_WIDTH]
  rw [if_pos (by omega)]

/-! ## Writing runs of bytes -/

/-- C6: from column 0 of row `row < 25`, writing exactly 80 non-newline bytes with
`terminal_write` ends at (row + 1, 0) without any scroll when `row + 1 < 25`; on
row 24 it ends at (24, 0) after exactly one `terminal_scroll`, applied after all
80 cells of row 24 were stored, so that the bytes end up in row 23 and row 24 is
blank. -/
theorem C6_write_full_row (s : Terminal) (data : Nat → Nat)
    (_hrow : s.terminal_row < 25) (hcol : s.terminal_column = 0)
    (hnl : ∀ i, i < 80 → data i ≠ NEWLINE) :
    (s.terminal_row + 1 < 25 →
      (terminal_write data 80 s).terminal_row = s.terminal_row + 1 ∧
      (terminal_write data 80 s).terminal_column = 0 ∧
      (terminal_write data 80 s).scroll_calls = s.scroll_calls ∧
      (∀ i, i < 80 → cell_at (terminal_write data 80 s) i s.terminal_row
        = vga_entry (data i) s.terminal_color) ∧
      (∀ j, ¬ (s.terminal_row * 80 ≤ j ∧ j < s.terminal_row * 80 + 80) →
        (terminal_write data 80 s).terminal_buffer j = s.terminal_buffer j)) ∧
    (s.terminal_row + 1 = 25 →
      (terminal_write data 80 s).terminal_row = 24 ∧
      (terminal_write data 80 s).terminal_column = 0 ∧
      (terminal_write data 80 s).scroll_calls = s.scroll_calls + 1 ∧
      (terminal_write data 80 s).terminal_buffer
        = (terminal_scroll
            { s with
              terminal_buffer :=
                write_span s.terminal_buffer (24 * 80) 80 data s.terminal_color }
          ).terminal_buffer ∧
      (∀ i, i < 80 → cell_at (terminal_write data 80 s) i 23
        = vga_entry (data i) s.terminal_color) ∧
      (∀ i, i < 80 → cell_at (terminal_write data 80 s) i 24
        = vga_entry SPACE s.terminal_color)) := by
  constructor
  · intro h
    rw [write_full_row data s h hcol hnl]
    refine ⟨rfl, rfl, rfl, ?_, ?_⟩
    · intro i hi
      simp only [cell_at, VGA_WIDTH, write_span]
      rw [if_pos (by omega)]
      congr 2
      omega
    · intro j hj
      simp only [write_span]
      rw [if_neg hj]
  · intro h
    have h24 : s.terminal_row = 24 := by omega
    rw [write_full_row_scroll data s h hcol hnl, h24, terminal_scroll_eq]
    refine ⟨rfl, rfl, rfl, rfl, ?_, ?_⟩
    · intro i hi
      have e : ∀ k, k = i →
          vga_entry (data k) s.terminal_color = vga_entry (data i) s.terminal_color :=
        fun k hk => by rw [hk]
      simp only [cell_at, VGA_WIDTH, write_span]
      rw [if_pos (by omega), if_pos (by omega)]
      exact e _ (by omega)
    · intro i hi
      simp only [cell_at, VGA_WIDTH]
      rw [if_neg (by omega), if_pos (by omega)]

/-- Instance of C6 at `sample_state` with 80 copies of the letter A. -/
theorem C6_write_full_row_witness :
    (terminal_write (fun _ => 65) 80 sample_state).terminal_row = 1 ∧
    (terminal_write (fun _ => 65) 80 sample_state).terminal_column = 0 ∧
    (terminal_write (fun _ => 65) 80 sample_state).scroll_calls = 0 :=
  have h := (C6_write_full_row sample_state (fun _ => 65) (by decide) rfl
    (fun _ _ => by show (65 : Nat) ≠ 10; decide)).1 (by decide)
  ⟨h.1, h.2.1, h.2.2.1⟩

/-- C7: on an in-range cursor (row, col), writing `n < 80 - col` non-newline bytes
with `terminal_write` leaves the row unchanged, makes the column `col + n`,
performs no scroll, stores byte `i` with the current colour at (row, col + i) for
every `i < n`, and leaves every other cell unchanged. -/
theorem C7_write_within_row (s : Terminal) (data : Nat → Nat) (n : Nat)
    (hcur : cursor_in_range s) (hlen : n < 80 - s.terminal_column)
    (hnl : ∀ i, i < n → data i ≠ NEWLINE) :
    (terminal_write data n s).terminal_row = s.terminal_row ∧
    (terminal_write data n s).terminal_column = s.terminal_column + n ∧
    (terminal_write data n s).scroll_calls = s.scroll_calls ∧
    (terminal_write data n s).terminal_color = s.terminal_color ∧
    (∀ i, i < n → cell_at (terminal_write data n s) (s.terminal_column + i) s.terminal_row
      = vga_entry (data i) s.terminal_color) ∧
    (∀ j, ¬ (s.terminal_row * 80 + s.terminal_column ≤ j ∧
          j < s.terminal_row * 80 + s.terminal_column + n) →
      (terminal_write data n s).terminal_buffer j = s.terminal_buffer j) := by
  obtain ⟨hr, hc⟩ := hcur
  unfold VGA_HEIGHT at hr
  unfold VGA_WIDTH at hc
  rw [write_within_row data n s hr (by omega) hnl]
  refine ⟨rfl, rfl, rfl, rfl, ?_, ?_⟩
  · intro i hi
    simp only [cell_at, VGA_WIDTH, write_span]
    rw [if_pos (by omega)]
    congr 2
    omega
  · intro j hj
    simp only [write_span]
    rw [if_neg hj]

/-- Instance of C7 at `sample_state` with three copies of the letter A. -/
theorem C7_write_within_row_witness :
    (terminal_write (fun _ => 65) 3 sample_state).terminal_row = 0 ∧
    (terminal_write (fun _ => 65) 3 sample_state).terminal_column = 3 ∧
    cell_at (terminal_write (fun _ => 65) 3 sample_state) 2 0 = 0x0741 :=
  have h := C7_write_within_row sample_state (fun _ => 65) 3 (by decide) (by decide)
    (fun _ _ => by show (65 : Nat) ≠ 10; decide)
  ⟨h.1, h.2.1, h.2.2.2.2.1 2 (by decide)⟩

/-! ## End-to-end scenarios -/

/-- C8: after `terminal_initialize` and `terminal_writestring` of "AB\nCD", row 0
holds A, B in columns 0-1 and spaces in columns 2-79, row 1 holds C, D in columns
0-1 and spaces in columns 2-79, every other cell is a space, every cell is light
grey on black, and the cursor is at row 1, column 2. -/
theorem C8_ab_newline_cd (s : Terminal) :
    cell_at (terminal_writestring (c_string "AB\nCD") ( terminal_initialize s)) 0 0 = 0x0741 ∧
    cell_at (terminal_writestring (c_string "AB\nCD") ( terminal_initialize s)) 1 0 = 0x0742 ∧
    cell_at (terminal_writestring (c_string "AB\nCD") ( terminal_initialize s)) 0 1 = 0x0743 ∧
    cell_at (terminal_writestring (c_string "AB\nCD") ( terminal_initialize s)) 1 1 = 0x0744 ∧
    (∀ x y, x < 80 → y < 25 → ¬ (x < 2 ∧ y < 2) →
      cell_at (terminal_writestring (c_string "AB\nCD") ( terminal_initialize s)) x y
        = 0x0720) ∧
    (∀ x y, x < 80 → y < 25 →
      cell_at (terminal_writestring (c_string "AB\nCD") ( terminal_initialize s)) x y / 256
        = 0x07) ∧
    (terminal_writestring (c_string "AB\nCD") ( terminal_initialize s)).terminal_row = 1 ∧
    (terminal_writestring (c_string "AB\nCD") ( terminal_initialize s)).terminal_column = 2 := by
  rw [writestring_ab_cd]
  have hA : vga_entry 65 7 = 1857 := by decide
  have hB : vga_entry 66 7 = 1858 := by decide
  have hC : vga_entry 67 7 = 1859 := by decide
  have hD : vga_entry 68 7 = 1860 := by decide
  simp only [cell_at, VGA_WIDTH, put_cell, hA, hB, hC, hD]
  refine ⟨rfl, rfl, rfl, rfl, ?_, ?_, trivial, trivial⟩
  · intro x y hx hy hxy
    rw [if_neg (by omega), if_neg (by omega), if_neg (by omega), if_neg (by omega),
      if_pos (by omega)]
  · intro x y hx hy
    split_ifs <;> first | rfl | omega

/-- C9: after `terminal_initialize`, `terminal_set_cursor(24, 79)` and
`terminal_putchar` of the letter X, the X was stored at row 24, column 79, then
`terminal_scroll` ran exactly once, the cursor is (24, 0), every row above the
bottom comes from the row below it (so the former row 0 is gone), the X sits at
row 23, column 79, and row 24 is all spaces. -/
theorem C9_bottom_right (s : Terminal) :
    cell_at (terminal_putentryat 88 7 79 24
      (terminal_set_cursor 24 79 ( terminal_initialize s))) 79 24 = 0x0758 ∧
    (terminal_putchar 88 (terminal_set_cursor 24 79 ( terminal_initialize s))).terminal_buffer
      = (terminal_scroll (terminal_putentryat 88 7 79 24
          (terminal_set_cursor 24 79 ( terminal_initialize s)))).terminal_buffer ∧
    (terminal_putchar 88 (terminal_set_cursor 24 79 ( terminal_initialize s))).scroll_calls
      = s.scroll_calls + 1 ∧
    (terminal_putchar 88 (terminal_set_cursor 24 79 ( terminal_initialize s))).terminal_row
      = 24 ∧
    (terminal_putchar 88 (terminal_set_cursor 24 79 ( terminal_initialize s))).terminal_column
      = 0 ∧
    (∀ x y, x < 80 → y < 24 →
      cell_at (terminal_putchar 88 (terminal_set_cursor 24 79 ( terminal_initialize s))) x y
        = cell_at (terminal_putentryat 88 7 79 24
            (terminal_set_cursor 24 79 ( terminal_initialize s))) x (y + 1)) ∧
    cell_at (terminal_putchar 88 (terminal_set_cursor 24 79 ( terminal_initialize s))) 79 23
      = 0x0758 ∧
    (∀ x, x < 80 →
      cell_at (terminal_putchar 88 (terminal_set_cursor 24 79 ( terminal_initialize s))) x 24
        = 0x0720) ∧
    (∀ x y, x < 80 → y < 24 → ¬ (x = 79 ∧ y = 23) →
      cell_at (terminal_putchar 88 (terminal_set_cursor 24 79 ( terminal_initialize s))) x y
        = 0x0720) := by
  rw [bottom_right_post, bottom_right_pre, terminal_scroll_eq]
  simp only [cell_at, VGA_WIDTH, put_cell]
  refine ⟨rfl, ?_, trivial, trivial, trivial, ?_, rfl, ?_, ?_⟩
  · rfl
  · intro x y hx hy
    rw [if_pos (by omega)]
    have e : (y + 1) * 80 + x = y * 80 + x + 80 := by omega
    rw [e]
  · intro x hx
    rw [if_neg (by omega), if_pos (by omega)]
  · intro x y hx hy hxy
    rw [if_pos (by omega), if_neg (by omega), if_pos (by omega)]

/-! ## Clearing against initialising -/

/-- C10: for every state whose current colour is a byte and every sequence of
`terminal_putchar` inputs (whether or not it scrolls, so in particular for every
sequence that stays within the surface), `terminal_clear` followed by the writes
and `terminal_initialize` followed by the same writes end with the same cursor and
the same character code in every cell; the colour byte of every cell is the
colour that was current before `terminal_clear` in the first run and 0x07 in the
second, so both surfaces agree cell for cell when that colour was 0x07. -/
theorem C10_clear_vs_fresh_start (s : Terminal) (cs : List Nat)
    (hcolor : s.terminal_color < 256) :
    (putchar_seq cs (terminal_clear s)).terminal_row
      = (putchar_seq cs ( terminal_initialize s)).terminal_row ∧
    (putchar_seq cs (terminal_clear s)).terminal_column
      = (putchar_seq cs ( terminal_initialize s)).terminal_column ∧
    (∀ x y, x < 80 → y < 25 →
      cell_at (putchar_seq cs (terminal_clear s)) x y % 256
        = cell_at (putchar_seq cs ( terminal_initialize s)) x y % 256 ∧
      cell_at (putchar_seq cs (terminal_clear s)) x y / 256 = s.terminal_color ∧
      cell_at (putchar_seq cs ( terminal_initialize s)) x y / 256 = 0x07) ∧
    (s.terminal_color = 0x07 → ∀ x y, x < 80 → y < 25 →
      cell_at (putchar_seq cs (terminal_clear s)) x y
        = cell_at (putchar_seq cs ( terminal_initialize s)) x y) := by
  have h := colour_rel_putchar_seq s.terminal_color cs hcolor _ _
    (colour_rel_start s hcolor)
  obtain ⟨hr, hc, _, _, _, _, hb⟩ := h
  refine ⟨hr, hc, ?_, ?_⟩
  · intro x y hx hy
    exact hb (y * 80 + x) (by omega)
  · intro h7 x y hx hy
    have h3 := hb (y * 80 + x) (by omega)
    simp only [cell_at, VGA_WIDTH]
    omega

/-- Instance of C10 at `sample_state` with the bytes of "A\nB". -/
theorem C10_clear_vs_fresh_start_witness :
    (putchar_seq [65, 10, 66] (terminal_clear sample_state)).terminal_row
      = (putchar_seq [65, 10, 66] ( terminal_initialize sample_state)).terminal_row ∧
    (putchar_seq [65, 10, 66] (terminal_clear sample_state)).terminal_column
      = (putchar_seq [65, 10, 66] ( terminal_initialize sample_state)).terminal_column :=
  have h := C10_clear_vs_fresh_start sample_state [65, 10, 66] (by decide)
  ⟨h.1, h.2.1⟩

/-! ## Packing, direct cell writes and repeated scrolling -/

/-- Packing of a colour pair in arithmetic form, for 4-bit components. -/
theorem vga_entry_color_eq (fg bg : Nat) (hfg : fg < 16) (hbg : bg < 16) :
    vga_entry_color fg bg = fg + 16 * bg := by
  unfold vga_entry_color
  have h1 : fg < 2 ^ 4 := by omega
  have h2 : 2 ^ 4 * bg + fg = 2 ^ 4 * bg ||| fg := Nat.mul_add_lt_is_or h1 _
  rw [Nat.lor_comm, Nat.shiftLeft_eq, Nat.mul_comm bg, ← h2]
  omega

/-- Buffer after `k` applications of `terminal_scroll`. -/
theorem scroll_iterate_eq (k : Nat) (s : Terminal) :
    Nat.iterate terminal_scroll k s
      = { s with
          terminal_buffer := fun j =>
            if j + 80 * k < 2000 then s.terminal_buffer (j + 80 * k)
            else if j < 2000 then vga_entry SPACE s.terminal_color
            else s.terminal_buffer j
          scroll_calls := s.scroll_calls + k } := by
  induction k with
  | zero =>
    ext <;> first | rfl | skip
    rename_i j
    show s.terminal_buffer j
      = if j + 80 * 0 < 2000 then s.terminal_buffer (j + 80 * 0)
        else if j < 2000 then vga_entry SPACE s.terminal_color else s.terminal_buffer j
    by_cases h : j < 2000
    · rw [if_pos (by omega)]
      rfl
    · rw [if_neg (by omega), if_neg h]
  | succ k ih =>
    rw [Function.iterate_succ_apply', ih, terminal_scroll_eq]
    ext <;> first | rfl | skip
    rename_i j
    simp only
    have e : j + 80 + 80 * k = j + 80 * (k + 1) := by omega
    rw [e]
    split_ifs <;> first | rfl | omega

/-- C13: applying `terminal_scroll` 25 times leaves every cell of the surface a
space in the current colour (which `terminal_scroll` never changes); more
generally after `k ≤ 25` applications row `i` is the original row `i + k` for
`i < 25 - k`, and rows `25 - k .. 24` are blank. -/
theorem C13_repeated_scroll (s : Terminal) :
    (∀ x y, x < 80 → y < 25 →
      cell_at (Nat.iterate terminal_scroll 25 s) x y = vga_entry SPACE s.terminal_color) ∧
    (∀ k, k ≤ 25 →
      (Nat.iterate terminal_scroll k s).terminal_color = s.terminal_color ∧
      (∀ x i, x < 80 → i < 25 - k →
        cell_at (Nat.iterate terminal_scroll k s) x i = cell_at s x (i + k)) ∧
      (∀ x i, x < 80 → 25 - k ≤ i → i < 25 →
        cell_at (Nat.iterate terminal_scroll k s) x i
          = vga_entry SPACE s.terminal_color)) := by
  constructor
  · intro x y hx hy
    rw [scroll_iterate_eq]
    simp only [cell_at, VGA_WIDTH]
    rw [if_neg (by omega), if_pos (by omega)]
  · intro k hk
    rw [scroll_iterate_eq]
    refine ⟨rfl, ?_, ?_⟩
    · intro x i hx hi
      simp only [cell_at, VGA_WIDTH]
      rw [if_pos (by omega)]
      congr 1
      rw [Nat.add_mul]
      omega
    · intro x i hx hlo hhi
      simp only [cell_at, VGA_WIDTH]
      rw [if_neg (by omega), if_pos (by omega)]

/-- C14: for `col < 80` and `row < 25`, `terminal_putentryat` stores the cell
packed from `c` and the colour argument (not the current colour) at linear index
`row * 80 + col` and leaves every other cell, the cursor and the current colour
unchanged. -/
theorem C14_putentryat_frame (s : Terminal) (c color col row : Nat)
    (hcol : col < 80) (hrow : row < 25) :
    (terminal_putentryat c color col row s).terminal_buffer (row * 80 + col)
      = vga_entry c color ∧
    cell_at (terminal_putentryat c color col row s) col row = c % 256 + 256 * (color % 256) ∧
    (∀ j, j ≠ row * 80 + col →
      (terminal_putentryat c color col row s).terminal_buffer j = s.terminal_buffer j) ∧
    (terminal_putentryat c color col row s).terminal_row = s.terminal_row ∧
    (terminal_putentryat c color col row s).terminal_column = s.terminal_column ∧
    (terminal_putentryat c color col row s).terminal_color = s.terminal_color ∧
    (terminal_putentryat c color col row s).scroll_calls = s.scroll_calls := by
  unfold terminal_putentryat
  rw [cell_index_eq col row hcol hrow]
  refine ⟨?_, ?_, ?_, rfl, rfl, rfl, rfl⟩
  · show put_cell s.terminal_buffer (row * 80 + col) (vga_entry c color) (row * 80 + col) = _
    unfold put_cell
    rw [if_pos rfl]
  · show put_cell s.terminal_buffer (row * 80 + col) (vga_entry c color) (row * 80 + col) = _
    unfold put_cell
    rw [if_pos rfl, vga_entry_eq]
  · intro j hj
    show put_cell s.terminal_buffer (row * 80 + col) (vga_entry c color) j = _
    unfold put_cell
    rw [if_neg hj]

/-- Instance of C14 at `sample_state`: the letter A in white on blue at column 3
of row 2. -/
theorem C14_putentryat_frame_witness :
    (terminal_putentryat 65 31 3 2 sample_state).terminal_buffer (2 * 80 + 3) = 0x1F41 ∧
    (terminal_putentryat 65 31 3 2 sample_state).terminal_color = 7 :=
  have h := C14_putentryat_frame sample_state 65 31 3 2 (by decide) (by decide)
  ⟨h.1, h.2.2.2.2.2.1⟩

/-- C16: for a character code `c < 256` and colours `fg, bg < 16`, the packed
cell is `c + 256 * (fg + 16 * bg)`: its low byte is `c`, bits 8-11 are `fg`,
bits 12-15 are `bg`, it fits in 16 bits, and the three components are recovered
from it, so the packing is injective. -/
theorem C16_cell_packing (c fg bg : Nat) (hc : c < 256) (hfg : fg < 16) (hbg : bg < 16) :
    vga_entry c (vga_entry_color fg bg) = c + 256 * (fg + 16 * bg) ∧
    vga_entry c (vga_entry_color fg bg) % 256 = c ∧
    vga_entry c (vga_entry_color fg bg) / 256 % 16 = fg ∧
    vga_entry c (vga_entry_color fg bg) / 4096 = bg ∧
    vga_entry c (vga_entry_color fg bg) < 65536 ∧
    (∀ c2 fg2 bg2, c2 < 256 → fg2 < 16 → bg2 < 16 →
      vga_entry c2 (vga_entry_color fg2 bg2) = vga_entry c (vga_entry_color fg bg) →
      c2 = c ∧ fg2 = fg ∧ bg2 = bg) := by
  have key : ∀ a f b, a < 256 → f < 16 → b < 16 →
      vga_entry a (vga_entry_color f b) = a + 256 * (f + 16 * b) := by
    intro a f b ha hf hb
    rw [vga_entry_eq, vga_entry_color_eq f b hf hb]
    omega
  rw [key c fg bg hc hfg hbg]
  refine ⟨rfl, by omega, by omega, by omega, by omega, ?_⟩
  intro c2 fg2 bg2 h1 h2 h3 h
  rw [key c2 fg2 bg2 h1 h2 h3] at h
  omega

/-- Instance of C16: the letter A in white on blue. -/
theorem C16_cell_packing_witness :
    vga_entry 65 (vga_entry_color 15 1) = 65 + 256 * (15 + 16 * 1) :=
  (C16_cell_packing 65 15 1 (by decide) (by decide) (by decide)).1

/-! ## General facts about `terminal_putchar` and the string writers -/

/-- The scroll counter never decreases in `terminal_putchar`, whatever the state. -/
theorem putchar_scroll_mono (c : Nat) (s : Terminal) :
    s.scroll_calls ≤ (terminal_putchar c s).scroll_calls := by
  unfold terminal_putchar advance_row
  simp only [terminal_scroll_eq]
  split_ifs <;> simp [terminal_putentryat, store]

/-- The current colour is never changed by `terminal_putchar`, whatever the state. -/
theorem putchar_color (c : Nat) (s : Terminal) :
    (terminal_putchar c s).terminal_color = s.terminal_color := by
  unfold terminal_putchar advance_row
  simp only [terminal_scroll_eq]
  split_ifs <;> simp [terminal_putentryat, store]

/-- An in-range cursor stays in range, and memory past the surface is untouched. -/
theorem putchar_in_range (c : Nat) (s : Terminal) (h : cursor_in_range s) :
    cursor_in_range (terminal_putchar c s) ∧
    (∀ j, 2000 ≤ j → (terminal_putchar c s).terminal_buffer j = s.terminal_buffer j) := by
  obtain ⟨r, col, k, b, n⟩ := s
  obtain ⟨hr, hc⟩ := h
  simp only [VGA_HEIGHT, VGA_WIDTH] at hr hc
  unfold cursor_in_range VGA_HEIGHT VGA_WIDTH
  by_cases hnl : c = NEWLINE
  · subst hnl
    by_cases hrow : r + 1 < 25
    · rw [putchar_newline_mk _ _ _ _ _ hrow]
      exact ⟨⟨hrow, (by decide : (0 : Nat) < 80)⟩, fun _ _ => rfl⟩
    · rw [putchar_newline_scroll_mk _ _ _ _ _ (by omega), terminal_scroll_eq]
      refine ⟨⟨(by decide : (24 : Nat) < 25), (by decide : (0 : Nat) < 80)⟩, ?_⟩
      intro j hj
      simp only
      rw [if_neg (by omega), if_neg (by omega)]
  · by_cases hcol : col + 1 < 80
    · rw [putchar_advance_mk _ _ _ _ _ _ hnl hr hcol]
      refine ⟨⟨hr, hcol⟩, ?_⟩
      intro j hj
      simp only [put_cell]
      rw [if_neg (by omega)]
    · by_cases hrow : r + 1 < 25
      · rw [putchar_wrap_mk _ _ _ _ _ _ hnl hrow (by omega)]
        refine ⟨⟨hrow, (by decide : (0 : Nat) < 80)⟩, ?_⟩
        intro j hj
        simp only [put_cell]
        rw [if_neg (by omega)]
      · rw [putchar_wrap_scroll_mk _ _ _ _ _ _ hnl (by omega) (by omega), terminal_scroll_eq]
        refine ⟨⟨(by decide : (24 : Nat) < 25), (by decide : (0 : Nat) < 80)⟩, ?_⟩
        intro j hj
        simp only [put_cell]
        rw [if_neg (by omega), if_neg (by omega), if_neg (by omega)]

/-- A newline that leaves the scroll counter unchanged was issued above row 24. -/
theorem putchar_newline_quiet (s : Terminal) (h : cursor_in_range s)
    (hq : (terminal_putchar NEWLINE s).scroll_calls = s.scroll_calls) :
    s.terminal_row + 1 < 25 := by
  obtain ⟨hr, _⟩ := h
  simp only [VGA_HEIGHT] at hr
  by_cases hrow : s.terminal_row + 1 < 25
  · exact hrow
  · rw [putchar_newline_scroll s (by omega), terminal_scroll_eq] at hq
    simp only at hq
    omega

/-- The scroll counter never decreases in `terminal_writestring`. -/
theorem writestring_scroll_mono (data : List Nat) :
    ∀ s : Terminal, s.scroll_calls ≤ (terminal_writestring data s).scroll_calls := by
  induction data with
  | nil => intro s; exact Nat.le_refl _
  | cons c rest ih =>
    intro s
    by_cases h0 : c = 0
    · rw [terminal_writestring, if_pos h0]
    · rw [writestring_cons c rest s h0]
      exact Nat.le_trans (putchar_scroll_mono c s) (ih _)

/-- Peeling the first byte off `terminal_write`. -/
theorem write_front (data : Nat → Nat) (n : Nat) (s : Terminal) :
    terminal_write data (n + 1) s
      = terminal_write (fun i => data (i + 1)) n (terminal_putchar (data 0) s) := by
  unfold terminal_write
  induction n with
  | zero => rfl
  | succ n ih => rw [forLoop_succ, ih, forLoop_succ]

/-- The loop of `terminal_write` as a sequence of `terminal_putchar` calls. -/
theorem write_eq_putchar_seq (data : Nat → Nat) (n : Nat) (s : Terminal) :
    terminal_write data n s = putchar_seq ((List.range n).map data) s := by
  unfold terminal_write putchar_seq
  induction n with
  | zero => rfl
  | succ n ih =>
    rw [forLoop_succ, ih, List.range_succ, List.map_append, List.foldl_append]
    rfl

/-- The loop of `terminal_writestring` stops at the first zero byte. -/
theorem writestring_eq_write (data : List Nat) :
    ∀ s : Terminal,
      terminal_writestring data s
        = terminal_write (fun i => data.getD i 0) (first_nul data) s := by
  induction data with
  | nil => intro s; rfl
  | cons c rest ih =>
    intro s
    by_cases h0 : c = 0
    · rw [terminal_writestring, if_pos h0, first_nul, if_pos h0]
      rfl
    · rw [writestring_cons c rest s h0, first_nul, if_neg h0, write_front, ih]
      rfl

/-- The properties that make `first_nul` the index of the first zero byte. -/
theorem first_nul_spec (data : List Nat) :
    first_nul data ≤ data.length ∧
    (∀ i, i < first_nul data → data.getD i 0 ≠ 0) ∧
    (first_nul data < data.length → data.getD (first_nul data) 0 = 0) := by
  induction data with
  | nil => exact ⟨Nat.le_refl _, fun i hi => absurd hi (Nat.not_lt_zero i), fun h => rfl⟩
  | cons c rest ih =>
    obtain ⟨h1, h2, h3⟩ := ih
    by_cases h0 : c = 0
    · rw [first_nul, if_pos h0]
      refine ⟨Nat.zero_le _, fun i hi => absurd hi (Nat.not_lt_zero i), fun _ => ?_⟩
      simpa using h0
    · rw [first_nul, if_neg h0]
      refine ⟨by simp only [List.length_cons]; omega, ?_, ?_⟩
      · intro i hi
        cases i with
        | zero => simpa using h0
        | succ i => simpa using h2 i (by omega)
      · intro hlt
        simp only [List.length_cons] at hlt
        simpa using h3 (by omega)

/-! ## String writers against sequences of single writes -/

/-- C11: on an in-range cursor, for a string without zero bytes whose output by
`terminal_writestring` causes no scroll, `terminal_writestring` ends in the same
state (surface and cursor included) as the manual rendering that replaces every
newline by `terminal_set_cursor(row + 1, 0)` and sends every other byte through
`terminal_putchar`. -/
theorem C11_writestring_vs_manual (data : List Nat) (s : Terminal)
    (hcur : cursor_in_range s) (hnul : ∀ c, c ∈ data → c ≠ 0)
    (hquiet : (terminal_writestring data s).scroll_calls = s.scroll_calls) :
    terminal_writestring data s = manual_interleave data s := by
  induction data generalizing s with
  | nil => rfl
  | cons c rest ih =>
    have h0 : c ≠ 0 := hnul c (List.mem_cons_self c rest)
    rw [writestring_cons c rest s h0] at hquiet ⊢
    have m1 := putchar_scroll_mono c s
    have m2 := writestring_scroll_mono rest (terminal_putchar c s)
    have hstep : (terminal_putchar c s).scroll_calls = s.scroll_calls := by omega
    have hrest := ih (terminal_putchar c s) (putchar_in_range c s hcur).1
      (fun d hd => hnul d (List.mem_cons_of_mem c hd)) (by omega)
    rw [hrest, manual_interleave]
    by_cases hnl : c = NEWLINE
    · subst hnl
      rw [if_pos rfl]
      have hrow := putchar_newline_quiet s hcur hstep
      have hset := set_cursor_nat (s.terminal_row + 1) 0 (by unfold SIZE_MOD; omega)
        (by decide) s
      rw [Nat.cast_zero] at hset
      rw [hset, putchar_newline s hrow]
    · rw [if_neg hnl]

/-- Instance of C11 at `sample_state` with the bytes of "A\nB". -/
theorem C11_writestring_vs_manual_witness :
    terminal_writestring [65, 10, 66] sample_state
      = manual_interleave [65, 10, 66] sample_state :=
  C11_writestring_vs_manual [65, 10, 66] sample_state (by decide) (by decide) (by decide)

/-- C12: `terminal_write(data, n)` is the left-to-right sequence of
`terminal_putchar` on exactly the bytes `data[0] .. data[n-1]`; a byte other than
newline (a zero byte or another control byte included) is stored as an ordinary
cell with that character code and moves the cursor on; `terminal_writestring` is
`terminal_write` with `n` the index of the first zero byte, which is therefore
never written. -/
theorem C12_write_as_putchar_sequence :
    (∀ (data : Nat → Nat) (n : Nat) (s : Terminal),
      terminal_write data n s = putchar_seq ((List.range n).map data) s) ∧
    (∀ (c : Nat) (s : Terminal), c < 256 → c ≠ NEWLINE → cursor_in_range s →
      vga_entry c s.terminal_color % 256 = c ∧
      (terminal_putchar c s).terminal_column
        = (if s.terminal_column + 1 < 80 then s.terminal_column + 1 else 0) ∧
      (terminal_putchar c s).terminal_row
        = (if s.terminal_column + 1 < 80 then s.terminal_row
           else if s.terminal_row + 1 < 25 then s.terminal_row + 1 else 24) ∧
      ((s.terminal_column + 1 < 80 ∨ s.terminal_row + 1 < 25) →
        (terminal_putchar c s).terminal_buffer
          = put_cell s.terminal_buffer (s.terminal_row * 80 + s.terminal_column)
              (vga_entry c s.terminal_color)) ∧
      (s.terminal_column + 1 = 80 → s.terminal_row + 1 = 25 →
        cell_at (terminal_putchar c s) 79 23 = vga_entry c s.terminal_color)) ∧
    (∀ (data : List Nat) (s : Terminal),
      terminal_writestring data s
        = terminal_write (fun i => data.getD i 0) (first_nul data) s ∧
      first_nul data ≤ data.length ∧
      (∀ i, i < first_nul data → data.getD i 0 ≠ 0) ∧
      (first_nul data < data.length → data.getD (first_nul data) 0 = 0)) := by
  refine ⟨write_eq_putchar_seq, ?_, fun data s =>
    ⟨writestring_eq_write data s, first_nul_spec data⟩⟩
  intro c s hc hnl hcur
  obtain ⟨r, col, k, b, n⟩ := s
  obtain ⟨hr, hcol⟩ := hcur
  simp only [VGA_HEIGHT, VGA_WIDTH] at hr hcol
  refine ⟨by rw [vga_entry_eq]; omega, ?_⟩
  by_cases h1 : col + 1 < 80
  · rw [putchar_advance_mk _ _ _ _ _ _ hnl hr h1]
    simp only [if_pos h1]
    exact ⟨trivial, trivial, fun _ => trivial, fun h2 => absurd h2 (by omega)⟩
  · by_cases h2 : r + 1 < 25
    · rw [putchar_wrap_mk _ _ _ _ _ _ hnl h2 (by omega)]
      simp only [if_neg h1, if_pos h2]
      exact ⟨trivial, trivial, fun _ => trivial, fun _ h3 => absurd h3 (by omega)⟩
    · rw [putchar_wrap_scroll_mk _ _ _ _ _ _ hnl (by omega) (by omega), terminal_scroll_eq]
      simp only [if_neg h1, if_neg h2]
      refine ⟨trivial, trivial, fun h3 => absurd h3 (by omega), fun _ _ => ?_⟩
      have e1 : r = 24 := by omega
      have e2 : col = 79 := by omega
      subst e1 e2
      simp only [cell_at, VGA_WIDTH, put_cell]
      rfl

/-! ## The cursor range invariant and unchecked cursor positions -/

/-- `terminal_write` keeps an in-range cursor in range and never stores past the
surface. -/
theorem write_in_range (data : Nat → Nat) (n : Nat) (s : Terminal)
    (h : cursor_in_range s) :
    cursor_in_range (terminal_write data n s) ∧
    (∀ j, 2000 ≤ j → (terminal_write data n s).terminal_buffer j = s.terminal_buffer j) := by
  unfold terminal_write
  induction n with
  | zero => exact ⟨h, fun _ _ => rfl⟩
  | succ n ih =>
    rw [forLoop_succ]
    have hp := putchar_in_range (data n) _ ih.1
    exact ⟨hp.1, fun j hj => (hp.2 j hj).trans (ih.2 j hj)⟩

/-- `terminal_writestring` keeps an in-range cursor in range and never stores past
the surface. -/
theorem writestring_in_range (data : List Nat) :
    ∀ s : Terminal, cursor_in_range s →
      cursor_in_range (terminal_writestring data s) ∧
      (∀ j, 2000 ≤ j →
        (terminal_writestring data s).terminal_buffer j = s.terminal_buffer j) := by
  induction data with
  | nil => intro s h; exact ⟨h, fun _ _ => rfl⟩
  | cons c rest ih =>
    intro s h
    by_cases h0 : c = 0
    · rw [terminal_writestring, if_pos h0]
      exact ⟨h, fun _ _ => rfl⟩
    · rw [writestring_cons c rest s h0]
      have hp := putchar_in_range c s h
      have hr := ih _ hp.1
      exact ⟨hr.1, fun j hj => (hr.2 j hj).trans (hp.2 j hj)⟩

/-- A non-newline byte written at a cursor outside the 80x25 range, with both
coordinates below `2 ^ 31`: one store at `row * 80 + col` and no scroll. -/
theorem putchar_out_of_range (c r col k : Nat) (b : Nat → Nat) (n : Nat)
    (hnl : c ≠ NEWLINE) (hr : r < 2147483648) (hcol : col < 2147483648)
    (hout : 25 ≤ r ∨ 80 ≤ col) :
    (terminal_putchar c ⟨r, col, k, b, n⟩).terminal_buffer
        = put_cell b (r * 80 + col) (vga_entry c k) ∧
    (terminal_putchar c ⟨r, col, k, b, n⟩).scroll_calls = n := by
  have e1 : cell_index col r = r * 80 + col := by
    unfold cell_index VGA_WIDTH SIZE_MOD
    omega
  have e2 : (col + 1) % SIZE_MOD = col + 1 := by
    unfold SIZE_MOD
    omega
  have e3 : (r + 1) % SIZE_MOD = r + 1 := by
    unfold SIZE_MOD
    omega
  unfold terminal_putchar terminal_putentryat
  rw [if_neg hnl]
  simp only [store, e1, e2, advance_row, e3, VGA_WIDTH, VGA_HEIGHT]
  by_cases h80 : col + 1 = 80
  · rw [if_pos h80, if_neg (by omega)]
    exact ⟨rfl, rfl⟩
  · rw [if_neg h80]
    exact ⟨rfl, rfl⟩

/-- C15: `terminal_setcolor` with the packed pair of `fg, bg < 16` makes that
pair the current colour and changes neither a cell nor the cursor, so cells
written earlier keep their colour; a later `terminal_putchar` stores its cell in
the new colour, and a scroll it triggers blanks the bottom row in the new colour
while the older cells move up unchanged. -/
theorem C15_setcolor_effect (s : Terminal) (fg bg : Nat) (hfg : fg < 16) (hbg : bg < 16) :
    (terminal_setcolor (vga_entry_color fg bg) s).terminal_color = fg + 16 * bg ∧
    (terminal_setcolor (vga_entry_color fg bg) s).terminal_buffer = s.terminal_buffer ∧
    (terminal_setcolor (vga_entry_color fg bg) s).terminal_row = s.terminal_row ∧
    (terminal_setcolor (vga_entry_color fg bg) s).terminal_column = s.terminal_column ∧
    (terminal_setcolor (vga_entry_color fg bg) s).scroll_calls = s.scroll_calls ∧
    (∀ c, vga_entry c (fg + 16 * bg) / 256 = fg + 16 * bg) ∧
    (∀ c, c ≠ NEWLINE → cursor_in_range s →
      (s.terminal_column + 1 < 80 ∨ s.terminal_row + 1 < 25) →
      (terminal_putchar c (terminal_setcolor (vga_entry_color fg bg) s)).terminal_buffer
        = put_cell s.terminal_buffer (s.terminal_row * 80 + s.terminal_column)
            (vga_entry c (fg + 16 * bg))) ∧
    (∀ c, cursor_in_range s → s.terminal_row + 1 = 25 →
      (c = NEWLINE ∨ s.terminal_column + 1 = 80) →
      (∀ x, x < 80 →
        cell_at (terminal_putchar c (terminal_setcolor (vga_entry_color fg bg) s)) x 24
          = vga_entry SPACE (fg + 16 * bg)) ∧
      (c ≠ NEWLINE →
        cell_at (terminal_putchar c (terminal_setcolor (vga_entry_color fg bg) s)) 79 23
          = vga_entry c (fg + 16 * bg)) ∧
      (∀ x y, x < 80 → y < 24 → (c = NEWLINE ∨ ¬ (x = 79 ∧ y = 23)) →
        cell_at (terminal_putchar c (terminal_setcolor (vga_entry_color fg bg) s)) x y
          = cell_at s x (y + 1))) := by
  obtain ⟨r, col, k0, b, n⟩ := s
  have hk : vga_entry_color fg bg % 256 = fg + 16 * bg := by
    rw [vga_entry_color_eq fg bg hfg hbg]
    omega
  have ht : terminal_setcolor (vga_entry_color fg bg) ⟨r, col, k0, b, n⟩
      = ⟨r, col, fg + 16 * bg, b, n⟩ := by
    unfold terminal_setcolor
    rw [hk]
  rw [ht]
  refine ⟨rfl, rfl, rfl, rfl, rfl, ?_, ?_, ?_⟩
  · intro c
    rw [vga_entry_eq]
    omega
  · intro c hnl hcur hfit
    obtain ⟨hr, hc⟩ := hcur
    simp only [VGA_HEIGHT, VGA_WIDTH] at hr hc hfit
    by_cases h1 : col + 1 < 80
    · rw [putchar_advance_mk _ _ _ _ _ _ hnl hr h1]
    · rw [putchar_wrap_mk _ _ _ _ _ _ hnl (by omega) (by omega)]
  · intro c hcur hrow hbreak
    obtain ⟨hr, hc⟩ := hcur
    simp only [VGA_HEIGHT, VGA_WIDTH] at hr hc hrow hbreak
    have e1 : r = 24 := by omega
    subst e1
    by_cases hnl : c = NEWLINE
    · subst hnl
      rw [putchar_newline_scroll_mk _ _ _ _ _ (by omega), terminal_scroll_eq]
      simp only [cell_at, VGA_WIDTH]
      refine ⟨?_, fun h => absurd rfl h, ?_⟩
      · intro x hx
        rw [if_neg (by omega), if_pos (by omega)]
      · intro x y hx hy _
        rw [if_pos (by omega)]
        congr 1
        omega
    · have e2 : col = 79 := by omega
      subst e2
      rw [putchar_wrap_scroll_mk _ _ _ _ _ _ hnl (by omega) (by omega), terminal_scroll_eq]
      simp only [cell_at, VGA_WIDTH, put_cell]
      refine ⟨?_, fun _ => ?_, ?_⟩
      · intro x hx
        rw [if_neg (by omega), if_pos (by omega)]
      · rfl
      · intro x y hx hy hxy
        rw [if_pos (by omega), if_neg (by omega)]
        congr 1
        omega

/-- Instance of C15 at `sample_state` with white on blue. -/
theorem C15_setcolor_effect_witness :
    (terminal_setcolor (vga_entry_color 15 1) sample_state).terminal_color = 15 + 16 * 1 ∧
    (terminal_setcolor (vga_entry_color 15 1) sample_state).terminal_buffer
      = sample_state.terminal_buffer :=
  have h := C15_setcolor_effect sample_state 15 1 (by decide) (by decide)
  ⟨h.1, h.2.1⟩

/-- C17 counterexample: a position outside the 80x25 range whose store lands
inside the surface:
after `terminal_set_cursor(0, 80)` the cursor is (0, 80), column 80 is out of
range, the linear index is 80, which is below 2000, and writing the letter A
overwrites column 0 of row 1. -/
theorem C17_counterexample :
    (25 ≤ 0 ∨ 80 ≤ 80) ∧
    (terminal_set_cursor 0 80 sample_state).terminal_row = 0 ∧
    (terminal_set_cursor 0 80 sample_state).terminal_column = 80 ∧
    cell_index 80 0 = 80 ∧ cell_index 80 0 < 80 * 25 ∧
    cell_at sample_state 0 1 = 0x0720 ∧
    cell_at (terminal_putchar 65 (terminal_set_cursor 0 80 sample_state)) 0 1 = 0x0741 := by
  have h := set_cursor_nat 0 80 (by decide) (by decide) sample_state
  rw [Nat.cast_zero, Nat.cast_ofNat] at h
  rw [h]
  have hp := putchar_out_of_range 65 0 80 7 (fun _ => 1824) 0 (by decide) (by decide)
    (by decide) (by decide)
  refine ⟨by decide, rfl, rfl, by decide, by decide, rfl, ?_⟩
  show (terminal_putchar 65 ⟨0, 80, 7, fun _ => 1824, 0⟩).terminal_buffer (1 * 80 + 0) = 0x0741
  rw [hp.1]
  rfl

/-- C17 (amended): `terminal_set_cursor` with non-negative `int` arguments stores
exactly `(row, col)` without validation and changes nothing else; when `row ≥ 25`
or `col ≥ 80` the next `terminal_putchar` of a non-newline byte stores at linear
index `row * 80 + col` without scrolling, and that index is outside the surface
whenever `row ≥ 25`. -/
theorem C17_set_cursor_unchecked (s : Terminal) (row col : Nat)
    (hrow : row < 2147483648) (hcol : col < 2147483648) :
    terminal_set_cursor (row : Int) (col : Int) s
      = { s with terminal_row := row, terminal_column := col } ∧
    (∀ c, c ≠ NEWLINE → (25 ≤ row ∨ 80 ≤ col) →
      (terminal_putchar c (terminal_set_cursor (row : Int) (col : Int) s)).terminal_buffer
        = put_cell s.terminal_buffer (row * 80 + col) (vga_entry c s.terminal_color)) ∧
    (25 ≤ row → 80 * 25 ≤ row * 80 + col) := by
  have h := set_cursor_nat row col (by unfold SIZE_MOD; omega) (by unfold SIZE_MOD; omega) s
  refine ⟨h, ?_, fun h25 => by omega⟩
  intro c hnl hout
  rw [h]
  exact (putchar_out_of_range c row col s.terminal_color s.terminal_buffer s.scroll_calls
    hnl hrow hcol hout).1

/-- Instance of C17 (amended) at `sample_state` with the cursor set to (25, 0). -/
theorem C17_set_cursor_unchecked_witness :
    (terminal_set_cursor ((25 : Nat) : Int) ((0 : Nat) : Int) sample_state).terminal_row = 25 ∧
    80 * 25 ≤ 25 * 80 + 0 :=
  have h := C17_set_cursor_unchecked sample_state 25 0 (by decide) (by decide)
  ⟨congrArg Terminal.terminal_row h.1, h.2.2 (by decide)⟩

/-- C18: the cursor range `row < 25`, `col < 80` is established by
`terminal_initialize` and `terminal_clear`, preserved by `terminal_putchar`,
`terminal_write`, `terminal_writestring`, `terminal_scroll`, `terminal_setcolor`
and `terminal_putentryat` for every input, and by `terminal_set_cursor` when its
arguments are in range; hence the index stored to by `terminal_putchar` from an
in-range state is below `80 * 25`, and the three writers leave all memory past
the surface untouched. -/
theorem C18_cursor_range_invariant :
    (∀ s, cursor_in_range ( terminal_initialize s)) ∧
    (∀ s, cursor_in_range (terminal_clear s)) ∧
    (∀ c s, cursor_in_range s → cursor_in_range (terminal_putchar c s)) ∧
    (∀ data n s, cursor_in_range s → cursor_in_range (terminal_write data n s)) ∧
    (∀ data s, cursor_in_range s → cursor_in_range (terminal_writestring data s)) ∧
    (∀ s, cursor_in_range s → cursor_in_range (terminal_scroll s)) ∧
    (∀ color s, cursor_in_range s → cursor_in_range (terminal_setcolor color s)) ∧
    (∀ c color x y s, cursor_in_range s →
      cursor_in_range (terminal_putentryat c color x y s)) ∧
    (∀ (row col : Nat) s, row < 25 → col < 80 →
      cursor_in_range (terminal_set_cursor (row : Int) (col : Int) s)) ∧
    (∀ s, cursor_in_range s → cell_index s.terminal_column s.terminal_row < 80 * 25) ∧
    (∀ c s, cursor_in_range s → ∀ j, 80 * 25 ≤ j →
      (terminal_putchar c s).terminal_buffer j = s.terminal_buffer j) ∧
    (∀ data n s, cursor_in_range s → ∀ j, 80 * 25 ≤ j →
      (terminal_write data n s).terminal_buffer j = s.terminal_buffer j) ∧
    (∀ data s, cursor_in_range s → ∀ j, 80 * 25 ≤ j →
      (terminal_writestring data s).terminal_buffer j = s.terminal_buffer j) := by
  refine ⟨?_, ?_, ?_, ?_, ?_, ?_, ?_, ?_, ?_, ?_, ?_, ?_, ?_⟩
  · intro s
    rw [terminal_initialize_eq]
    exact ⟨(by decide : (0 : Nat) < 25), (by decide : (0 : Nat) < 80)⟩
  · intro s
    rw [terminal_clear_eq]
    exact ⟨(by decide : (0 : Nat) < 25), (by decide : (0 : Nat) < 80)⟩
  · intro c s h
    exact (putchar_in_range c s h).1
  · intro data n s h
    exact (write_in_range data n s h).1
  · intro data s h
    exact (writestring_in_range data s h).1
  · intro s h
    rw [terminal_scroll_eq]
    exact h
  · intro color s h
    exact h
  · intro c color x y s h
    exact h
  · intro row col s hr hc
    rw [set_cursor_nat row col (by unfold SIZE_MOD; omega) (by unfold SIZE_MOD; omega) s]
    exact ⟨hr, hc⟩
  · intro s h
    obtain ⟨hr, hc⟩ := h
    simp only [VGA_HEIGHT, VGA_WIDTH] at hr hc
    rw [cell_index_eq _ _ hc hr]
    omega
  · intro c s h j hj
    exact (putchar_in_range c s h).2 j (by omega)
  · intro data n s h j hj
    exact (write_in_range data n s h).2 j (by omega)
  · intro data s h j hj
    exact (writestring_in_range data s h).2 j (by omega)

/-! ## Consecutive line breaks on the bottom row -/

/-- One line break on row 24 scrolls once and leaves the cursor at (24, 0). -/
theorem line_break_bottom (b : Option (Nat → Nat)) (s : Terminal)
    (hrow : s.terminal_row = 24)
    (hstart : ∀ data, b = some data → s.terminal_column = 0)
    (hfull : ∀ data, b = some data → ∀ i, i < 80 → data i ≠ NEWLINE) :
    (line_break b s).terminal_row = 24 ∧ (line_break b s).terminal_column = 0 ∧
    (line_break b s).scroll_calls = s.scroll_calls + 1 := by
  cases b with
  | none =>
    show (terminal_putchar NEWLINE s).terminal_row = 24 ∧
      (terminal_putchar NEWLINE s).terminal_column = 0 ∧
      (terminal_putchar NEWLINE s).scroll_calls = s.scroll_calls + 1
    rw [putchar_newline_scroll s (by omega), terminal_scroll_eq]
    exact ⟨rfl, rfl, rfl⟩
  | some data =>
    show (terminal_write data 80 s).terminal_row = 24 ∧
      (terminal_write data 80 s).terminal_column = 0 ∧
      (terminal_write data 80 s).scroll_calls = s.scroll_calls + 1
    rw [write_full_row_scroll data s (by omega) (hstart data rfl) (hfull data rfl),
      terminal_scroll_eq]
    exact ⟨rfl, rfl, rfl⟩

/-- Every prefix of a sequence of line breaks started on row 24. -/
theorem line_breaks_bottom (bs : List (Option (Nat → Nat))) :
    ∀ (s : Terminal) (k : Nat), s.terminal_row = 24 →
      (∀ data, bs.head? = some (some data) → s.terminal_column = 0) →
      (∀ data, some data ∈ bs → ∀ i, i < 80 → data i ≠ NEWLINE) →
      k ≤ bs.length →
      (line_breaks (bs.take k) s).terminal_row = 24 ∧
      (0 < k → (line_breaks (bs.take k) s).terminal_column = 0) ∧
      (line_breaks (bs.take k) s).scroll_calls = s.scroll_calls + k := by
  induction bs with
  | nil =>
    intro s k hrow _ _ hk
    have e : k = 0 := by simpa using hk
    subst e
    exact ⟨hrow, fun h => absurd h (Nat.lt_irrefl 0), rfl⟩
  | cons b rest ih =>
    intro s k hrow hstart hfull hk
    cases k with
    | zero => exact ⟨hrow, fun h => absurd h (Nat.lt_irrefl 0), rfl⟩
    | succ k =>
      have hb := line_break_bottom b s hrow
        (fun data e => hstart data (by rw [e]; rfl))
        (fun data e => hfull data (by rw [e]; exact List.mem_cons_self _ _))
      obtain ⟨h1, h2, h3⟩ := hb
      have hr := ih (line_break b s) k h1 (fun _ _ => h2)
        (fun data hd => hfull data (List.mem_cons_of_mem _ hd))
        (by simpa using hk)
      obtain ⟨r1, r2, r3⟩ := hr
      show (line_breaks (rest.take k) (line_break b s)).terminal_row = 24 ∧
        (0 < k + 1 → (line_breaks (rest.take k) (line_break b s)).terminal_column = 0) ∧
        (line_breaks (rest.take k) (line_break b s)).scroll_calls = s.scroll_calls + (k + 1)
      refine ⟨r1, fun _ => ?_, by omega⟩
      cases k with
      | zero => exact h2
      | succ k => exact r2 (Nat.succ_pos k)

/-- C19: from a state on row 24, after each of `n` consecutive line breaks
(newlines, or full 80-byte lines that start at column 0) the cursor is at (24, 0)
and `terminal_scroll` has run once per line break, `n` times in total; the row
never reaches 25. -/
theorem C19_bottom_row_pinned (s : Terminal) (bs : List (Option (Nat → Nat)))
    (hrow : s.terminal_row = 24)
    (hstart : ∀ data, bs.head? = some (some data) → s.terminal_column = 0)
    (hfull : ∀ data, some data ∈ bs → ∀ i, i < 80 → data i ≠ NEWLINE) :
    ∀ k, k ≤ bs.length →
      (line_breaks (bs.take k) s).terminal_row = 24 ∧
      (0 < k → (line_breaks (bs.take k) s).terminal_column = 0) ∧
      (line_breaks (bs.take k) s).scroll_calls = s.scroll_calls + k :=
  fun k hk => line_breaks_bottom bs s k hrow hstart hfull hk

/-- Instance of C19: from (24, 5), a newline followed by a full line of the
letter A. -/
theorem C19_bottom_row_pinned_witness :
    (line_breaks [none, some (fun _ => 65)] ⟨24, 5, 7, fun _ => 1824, 0⟩).terminal_row
      = 24 ∧
    (line_breaks [none, some (fun _ => 65)] ⟨24, 5, 7, fun _ => 1824, 0⟩).terminal_column
      = 0 ∧
    (line_breaks [none, some (fun _ => 65)] ⟨24, 5, 7, fun _ => 1824, 0⟩).scroll_calls
      = 2 :=
  have h := C19_bottom_row_pinned ⟨24, 5, 7, fun _ => 1824, 0⟩ [none, some (fun _ => 65)]
    rfl (fun _ e => by simp at e)
    (fun data e i _ => by
      simp at e
      subst e
      show (65 : Nat) ≠ 10
      decide)
    2 (by decide)
  ⟨h.1, h.2.1 (by decide), h.2.2⟩

/-! ## The boot sequence -/

/-- `cursor_step` agrees with `terminal_putchar` on an in-range cursor. -/
theorem cursor_step_sound (c : Nat) (s : Terminal) (q : Nat × Nat)
    (h : cursor_in_range s)
    (hq : cursor_step c (s.terminal_row, s.terminal_column) = some q) :
    (terminal_putchar c s).terminal_row = q.1 ∧
    (terminal_putchar c s).terminal_column = q.2 ∧
    (terminal_putchar c s).scroll_calls = s.scroll_calls := by
  obtain ⟨r, col, k, b, n⟩ := s
  obtain ⟨hr, hc⟩ := h
  simp only [VGA_HEIGHT, VGA_WIDTH] at hr hc
  unfold cursor_step at hq
  simp only at hq
  by_cases hnl : c = NEWLINE
  · subst hnl
    rw [if_pos rfl] at hq
    by_cases hrow : r + 1 < 25
    · rw [if_pos hrow] at hq
      cases hq
      rw [putchar_newline_mk _ _ _ _ _ hrow]
      exact ⟨rfl, rfl, rfl⟩
    · rw [if_neg hrow] at hq
      cases hq
  · rw [if_neg hnl] at hq
    by_cases hcol : col + 1 < 80
    · rw [if_pos hcol] at hq
      cases hq
      rw [putchar_advance_mk _ _ _ _ _ _ hnl hr hcol]
      exact ⟨rfl, rfl, rfl⟩
    · rw [if_neg hcol] at hq
      by_cases hrow : r + 1 < 25
      · rw [if_pos hrow] at hq
        cases hq
        rw [putchar_wrap_mk _ _ _ _ _ _ hnl hrow (by omega)]
        exact ⟨rfl, rfl, rfl⟩
      · rw [if_neg hrow] at hq
        cases hq

/-- `cursor_run` agrees with `terminal_writestring` on an in-range cursor. -/
theorem cursor_run_sound (data : List Nat) :
    ∀ (s : Terminal) (p : Nat × Nat), cursor_in_range s →
      cursor_run data (s.terminal_row, s.terminal_column) = some p →
      (terminal_writestring data s).terminal_row = p.1 ∧
      (terminal_writestring data s).terminal_column = p.2 ∧
      (terminal_writestring data s).scroll_calls = s.scroll_calls := by
  induction data with
  | nil =>
    intro s p _ hp
    cases hp
    exact ⟨rfl, rfl, rfl⟩
  | cons c rest ih =>
    intro s p h hp
    by_cases h0 : c = 0
    · rw [cursor_run, if_pos h0] at hp
      cases hp
      rw [terminal_writestring, if_pos h0]
      exact ⟨rfl, rfl, rfl⟩
    · rw [cursor_run, if_neg h0] at hp
      rw [writestring_cons c rest s h0]
      cases hstep : cursor_step c (s.terminal_row, s.terminal_column) with
      | none =>
        rw [hstep] at hp
        cases hp
      | some q =>
        rw [hstep] at hp
        simp only at hp
        obtain ⟨e1, e2, e3⟩ := cursor_step_sound c s q h hstep
        have hin := (putchar_in_range c s h).1
        have hr := ih (terminal_putchar c s) p hin (by rw [e1, e2]; exact hp)
        exact ⟨hr.1, hr.2.1, hr.2.2.trans e3⟩

/-- The current colour is never changed by `terminal_writestring`. -/
theorem writestring_color (data : List Nat) :
    ∀ s : Terminal, (terminal_writestring data s).terminal_color = s.terminal_color := by
  induction data with
  | nil => intro s; rfl
  | cons c rest ih =>
    intro s
    by_cases h0 : c = 0
    · rw [terminal_writestring, if_pos h0]
    · rw [writestring_cons c rest s h0, ih, putchar_color]

/-- When every cell of the surface carries the current colour, it still does
after `terminal_writestring`. -/
theorem writestring_colour_bytes (data : List Nat) (s : Terminal) (k : Nat) (hk : k < 256)
    (h : cursor_in_range s) (hcol : s.terminal_color = k)
    (hb : ∀ j, j < 2000 → s.terminal_buffer j / 256 = k) :
    ∀ j, j < 2000 → (terminal_writestring data s).terminal_buffer j / 256 = k := by
  obtain ⟨hr, hc⟩ := h
  simp only [VGA_HEIGHT, VGA_WIDTH] at hr hc
  have hrel : colour_rel k s
      ⟨s.terminal_row, s.terminal_column, 7,
        fun j => s.terminal_buffer j % 256 + 1792, s.scroll_calls⟩ := by
    refine ⟨rfl, rfl, hr, hc, hcol, rfl, ?_⟩
    intro j hj
    have := hb j hj
    simp only
    omega
  have hseq := colour_rel_putchar_seq k
    ((List.range (first_nul data)).map (fun i => data.getD i 0)) hk _ _ hrel
  rw [← write_eq_putchar_seq, ← writestring_eq_write] at hseq
  intro j hj
  exact (hseq.2.2.2.2.2.2 j hj).2.1

/-- A string whose cursor run does not scroll keeps the text invariant and moves
the cursor as `cursor_run` says. -/
theorem main_inv_writestring (s0 t : Terminal) (r c : Nat) (data : List Nat)
    (p : Nat × Nat) (h : main_inv s0 r c t) (hp : cursor_run data (r, c) = some p) :
    main_inv s0 p.1 p.2 (terminal_writestring data t) := by
  obtain ⟨h1, h2, h3, h4, h5, h6, h7, h8⟩ := h
  have hin : cursor_in_range t := by
    unfold cursor_in_range VGA_HEIGHT VGA_WIDTH
    rw [h1, h2]
    exact ⟨h3, h4⟩
  obtain ⟨e1, e2, e3⟩ := cursor_run_sound data t p hin (by rw [h1, h2]; exact hp)
  have hout := writestring_in_range data t hin
  obtain ⟨o1, o2⟩ := hout.1
  simp only [VGA_HEIGHT, VGA_WIDTH] at o1 o2
  refine ⟨e1, e2, by omega, by omega, ?_, by omega, ?_, ?_⟩
  · rw [writestring_color, h5]
  · intro j hj
    rw [hout.2 j hj, h7 j hj]
  · exact writestring_colour_bytes data t 15 (by decide) hin h5 h8

/-- Setting white on black again keeps the text invariant. -/
theorem main_inv_setcolor (s0 t : Terminal) (r c : Nat) (h : main_inv s0 r c t) :
    main_inv s0 r c
      (terminal_setcolor (vga_entry_color VGA_COLOR_WHITE VGA_COLOR_BLACK) t) := by
  obtain ⟨h1, h2, h3, h4, _, h6, h7, h8⟩ := h
  have hk : vga_entry_color VGA_COLOR_WHITE VGA_COLOR_BLACK % 256 = 15 := by decide
  exact ⟨h1, h2, h3, h4, hk, h6, h7, h8⟩

/-- A property kept by every iteration of a loop holds after the loop. -/
theorem forLoop_invariant {σ : Type} (P : σ → Prop) (body : Nat → σ → σ) (n : Nat)
    (s : σ)
    (hbody : ∀ i, i < n → ∀ t, P t → P (body i t)) (h0 : P s) :
    P (forLoop n body s) := by
  induction n with
  | zero => exact h0
  | succ n ih =>
    rw [forLoop_succ]
    exact hbody n (Nat.lt_succ_self n) _
      (ih (fun i hi t ht => hbody i (Nat.lt_succ_of_lt hi) t ht))

theorem splash_inv_start (s : Terminal) : splash_inv s 7 ( terminal_initialize s) := by
  rw [terminal_initialize_eq]
  refine ⟨rfl, rfl, ?_⟩
  intro j hj
  simp only
  rw [if_neg (by omega)]

theorem splash_inv_putentryat (s0 t : Terminal) (k c color x y : Nat)
    (hx : x < 80) (hy : y < 25) (h : splash_inv s0 k t) :
    splash_inv s0 k (terminal_putentryat c color x y t) := by
  obtain ⟨h1, h2, h3⟩ := h
  unfold terminal_putentryat
  rw [cell_index_eq x y hx hy]
  refine ⟨h1, h2, ?_⟩
  intro j hj
  simp only [store, put_cell]
  rw [if_neg (by omega)]
  exact h3 j hj

theorem splash_inv_setcolor (s0 t : Terminal) (k color : Nat) (h : splash_inv s0 k t) :
    splash_inv s0 (color % 256) (terminal_setcolor color t) :=
  ⟨h.1, rfl, h.2.2⟩

theorem splash_inv_set_cursor (s0 t : Terminal) (k : Nat) (row col : Int)
    (h : splash_inv s0 k t) : splash_inv s0 k (terminal_set_cursor row col t) :=
  ⟨h.1, h.2.1, h.2.2⟩

theorem splash_inv_clear (s0 t : Terminal) (k : Nat) (h : splash_inv s0 k t) :
    splash_inv s0 k (terminal_clear t) := by
  obtain ⟨h1, h2, h3⟩ := h
  rw [terminal_clear_eq]
  refine ⟨h1, h2, ?_⟩
  intro j hj
  simp only
  rw [if_neg (by omega)]
  exact h3 j hj

/-- Positioning the cursor in range and writing a string that does not scroll
keeps the splash invariant. -/
theorem splash_inv_write_at (s0 t : Terminal) (k : Nat) (row col : Int) (r c : Nat)
    (data : List Nat) (p : Nat × Nat)
    (hrow : (row % (SIZE_MOD : Int)).toNat = r) (hcol : (col % (SIZE_MOD : Int)).toNat = c)
    (hr : r < 25) (hc : c < 80) (hp : cursor_run data (r, c) = some p)
    (h : splash_inv s0 k t) :
    splash_inv s0 k (terminal_writestring data (terminal_set_cursor row col t)) := by
  obtain ⟨h1, h2, h3⟩ := h
  have e : terminal_set_cursor row col t
      = ⟨r, c, t.terminal_color, t.terminal_buffer, t.scroll_calls⟩ := by
    unfold terminal_set_cursor
    rw [hrow, hcol]
  rw [e]
  have hin : cursor_in_range
      (⟨r, c, t.terminal_color, t.terminal_buffer, t.scroll_calls⟩ : Terminal) := ⟨hr, hc⟩
  obtain ⟨_, _, e3⟩ := cursor_run_sound data _ p hin hp
  have hout := writestring_in_range data _ hin
  refine ⟨e3.trans h1, ?_, ?_⟩
  · rw [writestring_color]
    exact h2
  · intro j hj
    rw [hout.2 j hj]
    exact h3 j hj

/-- After `terminal_clear` in white on black the text invariant holds at (0, 0). -/
theorem main_inv_after_clear (s0 t : Terminal) (h : splash_inv s0 15 t) :
    main_inv s0 0 0 (terminal_clear t) := by
  obtain ⟨h1, h2, h3⟩ := h
  rw [terminal_clear_eq]
  refine ⟨rfl, rfl, by decide, by decide, h2, h1, ?_, ?_⟩
  · intro j hj
    simp only
    rw [if_neg (by omega)]
    exact h3 j hj
  · intro j hj
    simp only
    rw [if_pos hj, h2]
    decide

set_option maxRecDepth 100000 in
/-- The logo is drawn without scrolling and inside the surface, and leaves white
on blue as the current colour. -/
theorem splash_inv_logo (s0 t : Terminal) (k : Nat) (h : splash_inv s0 k t) :
    splash_inv s0 31 (draw_marstech_logo t) := by
  have h1 := splash_inv_setcolor s0 t k (vga_entry_color VGA_COLOR_WHITE VGA_COLOR_BLUE) h
  rw [show vga_entry_color VGA_COLOR_WHITE VGA_COLOR_BLUE % 256 = 31 from by decide] at h1
  have h2 := splash_inv_write_at s0 _ 31 5 15 5 15 _ (5, 65) (by decide) (by decide)
    (by decide) (by decide)
    (by decide :
      cursor_run (c_string " __  __    _    ____  ____ _____ _____ ____ _   _ ") (5, 15)
        = some (5, 65)) h1
  have h3 := splash_inv_write_at s0 _ 31 6 15 6 15 _ (6, 65) (by decide) (by decide)
    (by decide) (by decide)
    (by decide :
      cursor_run (c_string "|  \\/  |  / \\  |  _ \\/ ___|_   _| ____/ ___| | | |") (6, 15)
        = some (6, 65)) h2
  have h4 := splash_inv_write_at s0 _ 31 7 15 7 15 _ (7, 65) (by decide) (by decide)
    (by decide) (by decide)
    (by decide :
      cursor_run (c_string "| |\\/| | / _ \\ | |_) \\___ \\ | | |  _|| |   | |_| |") (7, 15)
        = some (7, 65)) h3
  have h5 := splash_inv_write_at s0 _ 31 8 15 8 15 _ (8, 65) (by decide) (by decide)
    (by decide) (by decide)
    (by decide :
      cursor_run (c_string "| |  | |/ ___ \\|  _ < ___) || | | |__| |___|  _  |") (8, 15)
        = some (8, 65)) h4
  exact splash_inv_write_at s0 _ 31 9 15 9 15 _ (9, 65) (by decide) (by decide)
    (by decide) (by decide)
    (by decide :
      cursor_run (c_string "|_|  |_/_/   \\_\\_| \\_\\____/ |_| |_____\\____|_| |_|") (9, 15)
        = some (9, 65)) h5

/-- The fade-in stores only inside row 13 and keeps the splash invariant. -/
theorem splash_inv_fade (s0 t : Terminal) (k : Nat) (h : splash_inv s0 k t) :
    splash_inv s0 k (draw_welcome_message_with_fade t) := by
  unfold draw_welcome_message_with_fade
  apply forLoop_invariant (splash_inv s0 k)
  · intro intensity _ u hu
    show splash_inv s0 k (forLoop 19 _ (terminal_set_cursor 13 25 u))
    apply forLoop_invariant (splash_inv s0 k)
    · intro i hi v hv
      exact splash_inv_putentryat s0 v k _ _ (25 + i) 13 (by omega) (by decide) hv
    · exact splash_inv_set_cursor s0 u k 13 25 hu
  · exact h

/-- The whole splash sequence keeps the splash invariant and ends in white on
blue. -/
theorem splash_inv_welcome (s0 t : Terminal) (k : Nat) (h : splash_inv s0 k t) :
    splash_inv s0 31 (show_welcome_screen t) := by
  unfold show_welcome_screen
  apply splash_inv_clear
  show splash_inv s0 31 (draw_welcome_message_with_fade (draw_marstech_logo _))
  apply splash_inv_fade
  apply splash_inv_logo s0 _ k
  apply forLoop_invariant (splash_inv s0 k)
  · intro y hy u hu
    apply forLoop_invariant (splash_inv s0 k)
    · intro x hx v hv
      exact splash_inv_putentryat s0 v k _ _ x y hx hy hv
    · exact hu
  · exact h

set_option maxRecDepth 100000 in
/-- The text invariant holds at (15, 0) when `kernel_main` returns. -/
theorem main_inv_kernel_main (s : Terminal) : main_inv s 15 0 (kernel_main s) := by
  have a1 := splash_inv_welcome s _ 7 (splash_inv_start s)
  have a2 := splash_inv_setcolor s _ 31 (vga_entry_color VGA_COLOR_WHITE VGA_COLOR_BLACK) a1
  rw [show vga_entry_color VGA_COLOR_WHITE VGA_COLOR_BLACK % 256 = 15 from by decide] at a2
  have a3 := main_inv_after_clear s _ a2
  have a4 := main_inv_setcolor s _ _ _ (main_inv_writestring s _ 0 0 _ (4, 0) a3
    (by decide :
      cursor_run (c_string "\n\n                          WELCOME TO MARSTECH OS!\n\n") (0, 0)
        = some (4, 0)))
  have a5 := main_inv_setcolor s _ _ _ (main_inv_writestring s _ 4 0 _ (5, 0) a4
    (by decide :
      cursor_run (c_string "SUCCESSFULLY ENTERED THE LONG MODE.\n") (4, 0) = some (5, 0)))
  have a6 := main_inv_setcolor s _ _ _ (main_inv_writestring s _ 5 0 _ (6, 0) a5
    (by decide :
      cursor_run (c_string "Futher Development on the process\n") (5, 0) = some (6, 0)))
  have a7 := main_inv_setcolor s _ _ _ (main_inv_writestring s _ 6 0 _ (8, 0) a6
    (by decide :
      cursor_run (c_string "                                  Complete OS Coming Soon\n\n")
        (6, 0) = some (8, 0)))
  have a8 := main_inv_setcolor s _ _ _ (main_inv_writestring s _ 8 0 _ (13, 0) a7
    (by decide :
      cursor_run
        (c_string "Developer M.N.Fatheen\nProud to be the Student of MARSTECH\n\nSpecial Thanks to my lecturer RAMZEEN SIR for his guidance\nmotivation and support\n")
        (8, 0) = some (13, 0)))
  exact main_inv_writestring s _ 13 0 _ (15, 0) a8
    (by decide :
      cursor_run (c_string "\n                      MARS TECHNOLOGY SYSTEMS READY.\n") (13, 0)
        = some (15, 0))

/-- C20: with `delay` a no-op, `kernel_main` run from any state never calls
`terminal_scroll`, stores nothing past the 80x25 surface, and ends with the
current colour white on black (0x0F), the colour byte of every cell white on
black, and the cursor at row 15, column 0. -/
theorem C20_kernel_main_final (s : Terminal) :
    (kernel_main s).scroll_calls = s.scroll_calls ∧
    (∀ j, 80 * 25 ≤ j → (kernel_main s).terminal_buffer j = s.terminal_buffer j) ∧
    (kernel_main s).terminal_color = 0x0F ∧
    (∀ x y, x < 80 → y < 25 → cell_at (kernel_main s) x y / 256 = 0x0F) ∧
    (kernel_main s).terminal_row = 15 ∧
    (kernel_main s).terminal_column = 0 := by
  obtain ⟨h1, h2, _, _, h5, h6, h7, h8⟩ := main_inv_kernel_main s
  refine ⟨h6, fun j hj => h7 j (by omega), h5, ?_, h1, h2⟩
  intro x y hx hy
  have h := h8 (y * 80 + x) (by omega)
  simp only [cell_at, VGA_WIDTH]
  exact h

end Kernel
